import Mathlib

/-!
# gigachat-go: token cache and stream decoder

A shallow embedding of `token_manager.go`, `errors.go` and, from `client.go`,
`validateMessages`, `Chat` and `ChatStream` with its decode loop, with the
properties proved about them.

Modelling conventions
* A Go `string` is a Lean `String`.
* A `time.Time` is the number of nanoseconds since the Unix epoch, an `Int`;
  wall clock and monotonic clock are taken to agree.
* Every `time.Now()` call site is an explicit clock reading supplied by the caller.
* What the network answers is an input: `DoOutcome` is what `tm.client.Do(req)`
  returns together with what `io.ReadAll` and `json.Decoder.Decode` make of the body.
* Library errors (`net/http`, `encoding/json`, `bufio`) are represented by their text.
-/

namespace GigaChat

/-! ## errors.go -/

/-- The struct `GigaChatError` of `errors.go`; `Err` is the wrapped cause, if any. -/
structure GigaChatError where
  Message : String
  Code : Int
  Err : Option String
  deriving DecidableEq, Repr

/-- The struct `AuthenticationError` of `errors.go`; `Err` is the wrapped cause, if any. -/
structure AuthenticationError where
  Message : String
  Err : Option String
  deriving DecidableEq, Repr

/-- The struct `ValidationError` of `errors.go`. -/
structure ValidationError where
  Message : String
  deriving DecidableEq, Repr

/-- The method `(*AuthenticationError).Error` of `errors.go`. -/
def AuthenticationError.Error (e : AuthenticationError) : String :=
  match e.Err with
  | some err => "authentication error: " ++ e.Message ++ ": " ++ err
  | none => "authentication error: " ++ e.Message

/-- The method `(*AuthenticationError).Unwrap` of `errors.go`. -/
def AuthenticationError.Unwrap (e : AuthenticationError) : Option String := e.Err

/-- The method `(*GigaChatError).Error` of `errors.go`. -/
def GigaChatError.Error (e : GigaChatError) : String :=
  match e.Err with
  | some err => "gigachat error (code " ++ toString e.Code ++ "): " ++ e.Message ++ ": " ++ err
  | none => "gigachat error (code " ++ toString e.Code ++ "): " ++ e.Message

/-- The method `(*GigaChatError).Unwrap` of `errors.go`. -/
def GigaChatError.Unwrap (e : GigaChatError) : Option String := e.Err

/-- The method `(*ValidationError).Error` of `errors.go`. -/
def ValidationError.Error (e : ValidationError) : String :=
  "validation error: " ++ e.Message

/-- A value of the Go interface `error` as this package produces it: one of its
three error kinds. -/
inductive GoError where
  | gigachat (e : GigaChatError)
  | authentication (e : AuthenticationError)
  | validation (e : ValidationError)
  deriving DecidableEq, Repr

/-- The text of an error value, `err.Error()`. -/
def GoError.Error : GoError → String
  | .gigachat e => e.Error
  | .authentication e => e.Error
  | .validation e => e.Error

/-! ## Time -/

/-- A `time.Time`: nanoseconds since the Unix epoch. -/
abbrev Time := Int

/-- A `time.Duration`: nanoseconds. -/
abbrev Duration := Int

/-- The constant `time.Second`. -/
def Second : Duration := 1000000000

/-- The constant `time.Minute`. -/
def Minute : Duration := 60 * Second

/-- The function `time.Unix(sec, 0)`. -/
def Unix (sec : Int) : Time := sec * 1000000000

/-- The method `t.Add(d)`. -/
def Time.Add (t : Time) (d : Duration) : Time := t + d

/-- The method `t.Before(u)`: strictly earlier. -/
def Time.Before (t u : Time) : Bool := decide (t < u)

/-! ## token_manager.go -/

/-- The struct `TokenResponse` of `models.go`; a field absent from the JSON body
keeps its zero value (`""`, `0`). -/
structure TokenResponse where
  AccessToken : String
  ExpiresAt : Int
  deriving DecidableEq, Repr

/-- The struct `TokenManager`: configuration and the cached credential. The HTTP
client and the lock are not state of the sequential model. -/
structure TokenManager where
  authKey : String
  scope : String
  oauthURI : String
  accessToken : String
  expiresAt : Time
  deriving DecidableEq, Repr

/-- The zero `time.Time` (January 1, year 1, 00:00 UTC). -/
def zeroTime : Time := Unix (-62135596800)

/-- The constructor `NewTokenManager` without options: default scope and
endpoint, empty credential. -/
def NewTokenManager (authKey : String) : TokenManager :=
  { authKey := authKey
    scope := "GIGACHAT_API_PERS"
    oauthURI := "https://ngw.devices.sberbank.ru:9443"
    accessToken := ""
    expiresAt := zeroTime }

/-- What the authorization endpoint answers to one `tm.client.Do(req)`:
a transport error, or a response with its status code, its body as read by
`io.ReadAll`, and the result of decoding that body into a `TokenResponse`. -/
inductive DoOutcome where
  | transportError (err : String)
  | response (StatusCode : Int) (body : String) (decoded : Except String TokenResponse)

/-- The clock readings of one `GetAccessToken` call, one per `time.Now()` site:
the check of `GetAccessToken`, the re-check of `refreshToken` under the lock,
and the default expiry of `refreshToken`. -/
structure Clock where
  nowFast : Time
  nowLocked : Time
  nowStore : Time
  deriving DecidableEq, Repr

/-- The clock of a call that takes place at the single instant `now`. -/
def Clock.instant (now : Time) : Clock := ⟨now, now, now⟩

/-- The outcome of a call: the returned pair `(token, err)`, the manager
afterwards, and how many times `tm.client.Do` was called. -/
structure CallResult where
  token : String
  err : Option GoError
  tm : TokenManager
  requests : Nat
  deriving DecidableEq, Repr

/-- The constant `http.StatusOK`. -/
def StatusOK : Int := 200

/-- The freshness test `tm.accessToken != "" && time.Now().Add(30*time.Second).Before(tm.expiresAt)`. -/
def isFresh (tm : TokenManager) (now : Time) : Bool :=
  tm.accessToken != "" && (now.Add (30 * Second)).Before tm.expiresAt

/-- The expiry `refreshToken` stores for a decoded `expires_at`. -/
def storedExpiry (ExpiresAt : Int) (now : Time) : Time :=
  if ExpiresAt > 0 then
    let expiresAt := ExpiresAt
    let expiresAt := if expiresAt > 1000000000000 then Int.tdiv expiresAt 1000 else expiresAt
    Unix expiresAt
  else
    now.Add (29 * Minute)

/-- The method `(*TokenManager).refreshToken`. `httpNewRequest url` is the error
`http.NewRequest("POST", url, body)` returns for the target `url`, if any. -/
def refreshToken (httpNewRequest : String → Option String) (tm : TokenManager)
    (clock : Clock) (reply : DoOutcome) : CallResult :=
  if isFresh tm clock.nowLocked then
    ⟨tm.accessToken, none, tm, 0⟩
  else
    match httpNewRequest (tm.oauthURI ++ "/api/v2/oauth") with
    | some err =>
      ⟨"", some (.authentication { Message := "failed to create request", Err := some err }), tm, 0⟩
    | none =>
      match reply with
      | .transportError err =>
        ⟨"", some (.authentication { Message := "OAuth token request failed", Err := some err }), tm, 1⟩
      | .response StatusCode body decoded =>
        if StatusCode ≠ StatusOK then
          ⟨"", some (.authentication
            { Message := "OAuth request failed with status " ++ toString StatusCode ++ ": " ++ body
              Err := none }), tm, 1⟩
        else
          match decoded with
          | .error err =>
            ⟨"", some (.authentication
              { Message := "failed to decode token response", Err := some err }), tm, 1⟩
          | .ok tokenResp =>
            if tokenResp.AccessToken = "" then
              ⟨"", some (.authentication
                { Message := "invalid token response: empty access token", Err := none }), tm, 1⟩
            else
              let tm1 := { tm with accessToken := tokenResp.AccessToken }
              let tm2 := { tm1 with expiresAt := storedExpiry tokenResp.ExpiresAt clock.nowStore }
              ⟨tm2.accessToken, none, tm2, 1⟩

/-- The method `(*TokenManager).GetAccessToken`. -/
def GetAccessToken (httpNewRequest : String → Option String) (tm : TokenManager)
    (clock : Clock) (reply : DoOutcome) : CallResult :=
  if isFresh tm clock.nowFast then
    ⟨tm.accessToken, none, tm, 0⟩
  else
    refreshToken httpNewRequest tm clock reply

/-! ## models.go: the streamed payload -/

/-- The struct `Message` of `models.go`. -/
structure Message where
  Role : String
  Content : String
  deriving DecidableEq, Repr

/-- The struct `ChatChoice` of `models.go`. -/
structure ChatChoice where
  Index : Int
  Message : GigaChat.Message
  Delta : GigaChat.Message
  FinishReason : String
  deriving DecidableEq, Repr

/-- The struct `Usage` of `models.go`. -/
structure Usage where
  PromptTokens : Int
  CompletionTokens : Int
  TotalTokens : Int
  deriving DecidableEq, Repr

/-- The struct `ChatResponse` of `models.go`. -/
structure ChatResponse where
  Choices : List ChatChoice
  Created : Int
  Model : String
  Usage : GigaChat.Usage
  Object : String
  deriving DecidableEq, Repr

/-! ## The `strings` functions used by the decode loop -/

/-- The predicate `unicode.IsSpace`: the Latin-1 spaces `\t \n \v \f \r`, space,
U+0085, U+00A0, and the other code points of the Unicode White_Space property. -/
def isSpace (c : Char) : Bool :=
  let r := c.toNat
  (0x09 ≤ r && r ≤ 0x0D) || r == 0x20 || r == 0x85 || r == 0xA0 || r == 0x1680 ||
  (0x2000 ≤ r && r ≤ 0x200A) || r == 0x2028 || r == 0x2029 || r == 0x202F ||
  r == 0x205F || r == 0x3000

/-- The function `strings.TrimSpace`: drop leading and trailing white space. -/
def TrimSpace (s : String) : String :=
  ⟨((s.data.dropWhile isSpace).reverse.dropWhile isSpace).reverse⟩

/-- The function `strings.HasPrefix`. -/
def HasPrefix (s pre : String) : Bool := pre.data.isPrefixOf s.data

/-- The function `strings.TrimPrefix`. -/
def TrimPrefix (s pre : String) : String :=
  if HasPrefix s pre then ⟨s.data.drop pre.data.length⟩ else s

/-! ## client.go: the decode loop of `ChatStream` -/

/-- One call of the `StreamCallback`: its arguments `(event, done, err)`. -/
structure Invocation where
  event : Option ChatResponse
  done : Bool
  err : Option GoError
  deriving DecidableEq, Repr

/-- The decode loop of `Client.ChatStream` (from `bufio.NewScanner` to the final
`return nil`). `lines` are the values of `scanner.Text()` for the successful
`Scan` calls and `scanErr` is `scanner.Err()` once `Scan` has returned false;
`unmarshal` is `json.Unmarshal` into a `ChatResponse`. The result is the list of
callback invocations, in the order made, and the error returned. -/
def decodeLoop (unmarshal : String → Except String ChatResponse) :
    List String → Option String → List Invocation × Option GoError
  | [], scanErr =>
    match scanErr with
    | some err => ([], some (.gigachat { Message := "stream reading error", Code := 0, Err := some err }))
    | none => ([], none)
  | text :: rest, scanErr =>
    let line := TrimSpace text
    if line = "" then
      decodeLoop unmarshal rest scanErr
    else if HasPrefix line "data:" then
      let dataPart := TrimSpace (TrimPrefix line "data:")
      if dataPart = "[DONE]" then
        ([⟨none, true, none⟩], none)
      else
        match unmarshal dataPart with
        | .error err =>
          let r := decodeLoop unmarshal rest scanErr
          (⟨none, false, some (.gigachat { Message := "failed to decode event", Code := 0, Err := some err })⟩ :: r.1, r.2)
        | .ok event =>
          let r := decodeLoop unmarshal rest scanErr
          (⟨some event, false, none⟩ :: r.1, r.2)
    else
      decodeLoop unmarshal rest scanErr

/-! ## The event sequence as the specification words it -/

/-- A line is a `data:` line when, surrounding white space apart, it starts with
the field marker `data:`. -/
def isDataLine (text : String) : Bool := HasPrefix (TrimSpace text) "data:"

/-- The trimmed value of a `data:` line: what follows the marker, trimmed. -/
def dataValue (text : String) : String :=
  TrimSpace (TrimPrefix (TrimSpace text) "data:")

/-- The lines up to and including the first one whose trimmed value is `[DONE]`. -/
def uptoDone : List String → List String
  | [] => []
  | text :: rest => if dataValue text = "[DONE]" then [text] else text :: uptoDone rest

/-- The invocation one `data:` line stands for: the completion marker for the
sentinel, else the parsed event or the decode error. -/
def invocationFor (unmarshal : String → Except String ChatResponse) (text : String) :
    Invocation :=
  if dataValue text = "[DONE]" then ⟨none, true, none⟩
  else
    match unmarshal (dataValue text) with
    | .ok event => ⟨some event, false, none⟩
    | .error err =>
      ⟨none, false, some (.gigachat { Message := "failed to decode event", Code := 0, Err := some err })⟩

/-- One invocation per `data:` line, in line order, up to and including the
first `[DONE]` line. -/
def expectedInvocations (unmarshal : String → Except String ChatResponse)
    (lines : List String) : List Invocation :=
  (uptoDone (lines.filter isDataLine)).map (invocationFor unmarshal)

/-! ## Named inputs and the failure causes of a refresh -/

/-- The causes for which a refresh fails, as the specification lists them:
request construction failure, transport failure, non-200 status, undecodable
body, empty `access_token`. -/
def refreshFails (httpNewRequest : String → Option String) (tm : TokenManager)
    (reply : DoOutcome) : Bool :=
  (httpNewRequest (tm.oauthURI ++ "/api/v2/oauth")).isSome ||
  match reply with
  | .transportError _ => true
  | .response StatusCode _ decoded =>
    StatusCode != 200 ||
    match decoded with
    | .error _ => true
    | .ok tokenResp => tokenResp.AccessToken == ""

/-- An `http.NewRequest` that accepts every URL. -/
def newRequestOk : String → Option String := fun _ => none

/-- The instant 2023-11-14T22:13:20Z. -/
def sampleNow : Time := Unix 1700000000

/-- The `expires_at` of a response after unit normalisation, in seconds since
the epoch: a value above 1,000,000,000,000 is milliseconds. -/
def normalisedExpiry (v : Int) : Int :=
  if v > 1000000000000 then v / 1000 else v

/-- A 200 response carrying `tok` that expires on 2020-09-13, before `sampleNow`. -/
def expiredReply : DoOutcome :=
  .response 200 "\x7b\"access_token\":\"tok\",\"expires_at\":1600000000\x7d"
    (.ok ⟨"tok", 1600000000⟩)

/-- A 200 response carrying `tok` with an `expires_at` one second before the epoch. -/
def beforeEpochReply : DoOutcome :=
  .response 200 "\x7b\"access_token\":\"tok\",\"expires_at\":-1\x7d" (.ok ⟨"tok", -1⟩)

/-- A 200 response carrying `tok` that expires one hour after `sampleNow`, in
milliseconds. -/
def hourReply : DoOutcome :=
  .response 200 "\x7b\"access_token\":\"tok\",\"expires_at\":1700003600000\x7d"
    (.ok ⟨"tok", 1700003600000⟩)

/-- A 200 response carrying `tok` and no `expires_at` field. -/
def bareTokenReply : DoOutcome :=
  .response 200 "\x7b\"access_token\":\"tok\"\x7d" (.ok ⟨"tok", 0⟩)

/-- A 401 response with a body that is not a token. -/
def unauthorizedReply : DoOutcome :=
  .response 401 "bad credentials" (.error "invalid character")

/-- A first call at `sampleNow` on a new manager, answered by `expiredReply`. -/
def expiredCall : CallResult :=
  GetAccessToken newRequestOk (NewTokenManager "key") (Clock.instant sampleNow) expiredReply

/-- A first call at `sampleNow` on a new manager, answered by `beforeEpochReply`. -/
def beforeEpochCall : CallResult :=
  GetAccessToken newRequestOk (NewTokenManager "key") (Clock.instant sampleNow) beforeEpochReply

/-- A manager whose cached token `old` is valid for an hour after `sampleNow`. -/
def warmManager : TokenManager :=
  { NewTokenManager "key" with accessToken := "old", expiresAt := Unix 1700003600 }

/-- A stand-in for `json.Unmarshal` into a `ChatResponse`: it accepts the payload
`{"choices":[]}` and rejects every other text. -/
def sampleUnmarshal : String → Except String ChatResponse := fun s =>
  if s = "\x7b\"choices\":[]\x7d" then .ok ⟨[], 0, "", ⟨0, 0, 0⟩, ""⟩
  else .error "invalid character"

/-! ## client.go: `validateMessages`, `Chat` and `ChatStream` -/

/-- The loop of `validateMessages`, from index `i` on. -/
def validateMessagesFrom : Nat → List Message → Option GoError
  | _, [] => none
  | i, msg :: rest =>
    if msg.Role ≠ "user" ∧ msg.Role ≠ "system" ∧ msg.Role ≠ "assistant" then
      some (.validation
        { Message := "invalid role \x27" ++ msg.Role ++ "\x27 at index " ++ toString i ++
            ". Must be \x27user\x27, \x27system\x27, or \x27assistant\x27" })
    else if TrimSpace msg.Content = "" then
      some (.validation
        { Message := "message content at index " ++ toString i ++
            " must be a non-empty string" })
    else
      validateMessagesFrom (i + 1) rest

/-- The function `validateMessages`; `none` is the nil error. -/
def validateMessages (messages : List Message) : Option GoError :=
  if messages.length = 0 then
    some (.validation { Message := "messages array cannot be empty" })
  else
    validateMessagesFrom 0 messages

/-- The fields of `Client` that the modelled calls read; the token manager is
passed along as state. -/
structure Client where
  baseURI : String
  defaultModel : String
  deriving DecidableEq, Repr

/-- What the chat endpoint answers to the `c.httpClient.Do(req)` of `Chat`: a
transport error, or a response with its status code, its body as read by
`io.ReadAll`, and the result of decoding that body into a `ChatResponse`. -/
inductive ChatOutcome where
  | transportError (err : String)
  | response (StatusCode : Int) (body : String) (decoded : Except String ChatResponse)

/-- What the chat endpoint answers to the `c.httpClient.Do(req)` of `ChatStream`:
a transport error, or a response with its status code, its body as read by
`io.ReadAll`, the lines the scanner yields from it and the final `scanner.Err()`. -/
inductive StreamOutcome where
  | transportError (err : String)
  | response (StatusCode : Int) (body : String) (lines : List String)
      (scanErr : Option String)

/-- The outcome of `Chat`: the returned pair, the token manager afterwards, and
how many times `GetAccessToken`, the authorization endpoint and the chat
endpoint were called. -/
structure ChatResult where
  resp : Option ChatResponse
  err : Option GoError
  tm : TokenManager
  tokenCalls : Nat
  authRequests : Nat
  apiRequests : Nat
  deriving DecidableEq, Repr

/-- The outcome of `ChatStream`: the returned error, the callback invocations in
the order made, the token manager afterwards, and the same three counters. -/
structure StreamResult where
  err : Option GoError
  invocations : List Invocation
  tm : TokenManager
  tokenCalls : Nat
  authRequests : Nat
  apiRequests : Nat
  deriving DecidableEq, Repr

/-- The method `(*Client).Chat`. `marshalErr` is the error of
`json.Marshal(chatReq)`, if any; the options only shape the request body. -/
def Chat (httpNewRequest : String → Option String) (c : Client) (tm : TokenManager)
    (clock : Clock) (authReply : DoOutcome) (marshalErr : Option String)
    (reply : ChatOutcome) (messages : List Message) : ChatResult :=
  match validateMessages messages with
  | some err => ⟨none, some err, tm, 0, 0, 0⟩
  | none =>
    let t := GetAccessToken httpNewRequest tm clock authReply
    match t.err with
    | some err => ⟨none, some err, t.tm, 1, t.requests, 0⟩
    | none =>
      match marshalErr with
      | some err =>
        ⟨none, some (.gigachat { Message := "failed to marshal request", Code := 0, Err := some err }),
          t.tm, 1, t.requests, 0⟩
      | none =>
        match httpNewRequest (c.baseURI ++ "/api/v1/chat/completions") with
        | some err =>
          ⟨none, some (.gigachat { Message := "failed to create request", Code := 0, Err := some err }),
            t.tm, 1, t.requests, 0⟩
        | none =>
          match reply with
          | .transportError err =>
            ⟨none, some (.gigachat { Message := "request failed", Code := 0, Err := some err }),
              t.tm, 1, t.requests, 1⟩
          | .response StatusCode body decoded =>
            if StatusCode ≠ StatusOK then
              ⟨none, some (.gigachat
                { Message := "API request failed: " ++ body, Code := StatusCode, Err := none }),
                t.tm, 1, t.requests, 1⟩
            else
              match decoded with
              | .error err =>
                ⟨none, some (.gigachat
                  { Message := "failed to decode response", Code := 0, Err := some err }),
                  t.tm, 1, t.requests, 1⟩
              | .ok chatResp => ⟨some chatResp, none, t.tm, 1, t.requests, 1⟩

/-- The method `(*Client).ChatStream`. -/
def ChatStream (httpNewRequest : String → Option String)
    (unmarshal : String → Except String ChatResponse) (c : Client) (tm : TokenManager)
    (clock : Clock) (authReply : DoOutcome) (marshalErr : Option String)
    (reply : StreamOutcome) (messages : List Message) : StreamResult :=
  match validateMessages messages with
  | some err => ⟨some err, [], tm, 0, 0, 0⟩
  | none =>
    let t := GetAccessToken httpNewRequest tm clock authReply
    match t.err with
    | some err => ⟨some err, [], t.tm, 1, t.requests, 0⟩
    | none =>
      match marshalErr with
      | some err =>
        ⟨some (.gigachat { Message := "failed to marshal request", Code := 0, Err := some err }),
          [], t.tm, 1, t.requests, 0⟩
      | none =>
        match httpNewRequest (c.baseURI ++ "/api/v1/chat/completions") with
        | some err =>
          ⟨some (.gigachat { Message := "failed to create request", Code := 0, Err := some err }),
            [], t.tm, 1, t.requests, 0⟩
        | none =>
          match reply with
          | .transportError err =>
            ⟨some (.gigachat { Message := "request failed", Code := 0, Err := some err }),
              [], t.tm, 1, t.requests, 1⟩
          | .response StatusCode body lines scanErr =>
            if StatusCode ≠ StatusOK then
              ⟨some (.gigachat
                { Message := "API request failed: " ++ body, Code := StatusCode, Err := none }),
                [], t.tm, 1, t.requests, 1⟩
            else
              let r := decodeLoop unmarshal lines scanErr
              ⟨r.2, r.1, t.tm, 1, t.requests, 1⟩

/-- A message is well formed when its role is `user`, `system` or `assistant` and
its content is not empty after trimming white space. -/
def wellFormed (m : Message) : Bool :=
  (m.Role == "user" || m.Role == "system" || m.Role == "assistant") &&
    TrimSpace m.Content != ""

/-- The client `NewClient` builds without options. -/
def defaultClient : Client :=
  { baseURI := "https://gigachat.devices.sberbank.ru", defaultModel := "GigaChat" }

/-! ## Concurrent callers of `GetAccessToken`

The read lock makes the check of `GetAccessToken` (lines 78-84) one atomic
section and the write lock makes the whole of `refreshToken` one atomic section,
the request to the authorization endpoint included. A concurrent execution is an
interleaving of these sections. -/

/-- One atomic section run by a caller: the check of `GetAccessToken` under the
read lock, with its clock reading, or `refreshToken` under the write lock, with
its two clock readings. -/
inductive HerdStep where
  | check (caller : Nat) (now : Time)
  | refresh (caller : Nat) (nowLocked nowStore : Time)
  deriving DecidableEq, Repr

/-- The clock reading a section compares with the expiry. -/
def HerdStep.reading : HerdStep → Time
  | .check _ now => now
  | .refresh _ nowLocked _ => nowLocked

/-- The clock reading a section would use for the default expiry, if it has one. -/
def HerdStep.storeReadings : HerdStep → List Time
  | .check _ _ => []
  | .refresh _ _ nowStore => [nowStore]

/-- The state of a group of concurrent calls: the shared manager, the callers
that have run their check, those that found the cache stale and have not yet run
`refreshToken`, the pairs `(token, err)` returned so far with their caller, and
the number of `client.Do` calls. -/
structure HerdState where
  tm : TokenManager
  started : List Nat
  waiting : List Nat
  results : List (Nat × String × Option GoError)
  requests : Nat
  deriving DecidableEq, Repr

/-- The state before any caller has run: the manager `tm`, nothing else. -/
def herdStart (tm : TokenManager) : HerdState := ⟨tm, [], [], [], 0⟩

/-- One section run on the shared state; `endpoint k` is what the authorization
endpoint answers to the request made after `k` earlier ones. A caller checks
once, and runs `refreshToken` once if its check failed; any other step is not
part of an execution (`none`). -/
def herdStep (httpNewRequest : String → Option String) (endpoint : Nat → DoOutcome)
    (st : HerdState) : HerdStep → Option HerdState
  | .check caller now =>
    if caller ∈ st.started then none
    else if isFresh st.tm now then
      some { st with started := caller :: st.started
                     results := st.results ++ [(caller, st.tm.accessToken, none)] }
    else
      some { st with started := caller :: st.started
                     waiting := caller :: st.waiting }
  | .refresh caller nowLocked nowStore =>
    if caller ∈ st.waiting then
      let r := refreshToken httpNewRequest st.tm ⟨nowLocked, nowLocked, nowStore⟩
        (endpoint st.requests)
      some { tm := r.tm
             started := st.started
             waiting := st.waiting.filter (fun i => i ≠ caller)
             results := st.results ++ [(caller, r.token, r.err)]
             requests := st.requests + r.requests }
    else none

/-- An interleaving run from a state. -/
def herdRun (httpNewRequest : String → Option String) (endpoint : Nat → DoOutcome) :
    HerdState → List HerdStep → Option HerdState
  | st, [] => some st
  | st, s :: rest =>
    match herdStep httpNewRequest endpoint st s with
    | none => none
    | some st1 => herdRun httpNewRequest endpoint st1 rest

/-- What holds of the shared state throughout a run in which the first request
is answered with `tok` and `expires_at = v`, fresh at every reading of `all`:
every started caller is waiting or has returned, and either nothing has been
requested, stored or returned yet, or one request has been made, its credential
is stored and every pair returned so far is `(tok, nil)`. -/
def HerdInv (httpNewRequest : String → Option String) (all : List HerdStep)
    (tok : String) (v : Int) (st : HerdState) : Prop :=
  httpNewRequest (st.tm.oauthURI ++ "/api/v2/oauth") = none ∧
  (∀ i, i ∈ st.started → i ∈ st.waiting ∨ ∃ r ∈ st.results, r.1 = i) ∧
  ((st.tm.accessToken = "" ∧ st.requests = 0 ∧ st.results = []) ∨
   (st.requests = 1 ∧ st.tm.accessToken = tok ∧
    (∃ b ∈ all, ∃ s ∈ b.storeReadings, st.tm.expiresAt = storedExpiry v s) ∧
    ∀ r ∈ st.results, r.2 = (tok, none)))

/-- Two callers that both check before either refreshes. -/
def twoCallers : List HerdStep :=
  [.check 0 sampleNow, .check 1 sampleNow,
   .refresh 0 sampleNow sampleNow, .refresh 1 sampleNow sampleNow]

/-- An authorization endpoint that answers 401 to the first request and drops
the connection on the later ones. -/
def failingEndpoint : Nat → DoOutcome := fun k =>
  if k = 0 then unauthorizedReply else .transportError "connection reset"

/-! ## Auxiliary facts -/

theorem isFresh_true_iff (tm : TokenManager) (now : Time) :
    isFresh tm now = true ↔ tm.accessToken ≠ "" ∧ now + 30000000000 < tm.expiresAt := by
  simp [isFresh, Time.Before, Time.Add, Second]

theorem isFresh_false_iff (tm : TokenManager) (now : Time) :
    isFresh tm now = false ↔ (tm.accessToken = "" ∨ tm.expiresAt ≤ now + 30000000000) := by
  rw [← Bool.not_eq_true, isFresh_true_iff]
  constructor
  · intro h
    by_cases ht : tm.accessToken = ""
    · exact Or.inl ht
    · exact Or.inr (not_lt.mp fun hlt => h ⟨ht, hlt⟩)
  · rintro (h | h) ⟨h1, h2⟩
    · exact h1 h
    · exact absurd h2 (not_lt.mpr h)

theorem GetAccessToken_of_fresh (f : String → Option String) (tm : TokenManager)
    (clock : Clock) (reply : DoOutcome) (h : isFresh tm clock.nowFast = true) :
    GetAccessToken f tm clock reply = ⟨tm.accessToken, none, tm, 0⟩ := by
  simp [GetAccessToken, h]

theorem GetAccessToken_of_stale (f : String → Option String) (tm : TokenManager)
    (clock : Clock) (reply : DoOutcome) (h : isFresh tm clock.nowFast = false) :
    GetAccessToken f tm clock reply = refreshToken f tm clock reply := by
  simp [GetAccessToken, h]

theorem refreshToken_of_fresh (f : String → Option String) (tm : TokenManager)
    (clock : Clock) (reply : DoOutcome) (h : isFresh tm clock.nowLocked = true) :
    refreshToken f tm clock reply = ⟨tm.accessToken, none, tm, 0⟩ := by
  simp [refreshToken, h]

theorem refreshToken_of_success (f : String → Option String) (tm : TokenManager)
    (clock : Clock) (body : String) (tr : TokenResponse)
    (h : isFresh tm clock.nowLocked = false)
    (hreq : f (tm.oauthURI ++ "/api/v2/oauth") = none) (htok : tr.AccessToken ≠ "") :
    refreshToken f tm clock (.response 200 body (.ok tr)) =
      ⟨tr.AccessToken, none,
        { tm with accessToken := tr.AccessToken
                  expiresAt := storedExpiry tr.ExpiresAt clock.nowStore }, 1⟩ := by
  simp [refreshToken, h, hreq, htok, StatusOK]

/-- Every outcome of `refreshToken` is one of: cache hit under the lock, a
failure that leaves the manager as it was, or a stored fresh credential. -/
theorem refreshToken_cases (f : String → Option String) (tm : TokenManager)
    (clock : Clock) (reply : DoOutcome) :
    (isFresh tm clock.nowLocked = true ∧
      refreshToken f tm clock reply = ⟨tm.accessToken, none, tm, 0⟩) ∨
    (isFresh tm clock.nowLocked = false ∧ refreshFails f tm reply = true ∧
      ∃ e, refreshToken f tm clock reply =
        ⟨"", some (.authentication e), tm,
          if (f (tm.oauthURI ++ "/api/v2/oauth")).isSome then 0 else 1⟩) ∨
    (isFresh tm clock.nowLocked = false ∧ refreshFails f tm reply = false ∧
      f (tm.oauthURI ++ "/api/v2/oauth") = none ∧
      ∃ body tr, reply = .response 200 body (.ok tr) ∧ tr.AccessToken ≠ "" ∧
        refreshToken f tm clock reply =
          ⟨tr.AccessToken, none,
            { tm with accessToken := tr.AccessToken
                      expiresAt := storedExpiry tr.ExpiresAt clock.nowStore }, 1⟩) := by
  cases hfr : isFresh tm clock.nowLocked with
  | true => exact Or.inl ⟨rfl, refreshToken_of_fresh f tm clock reply hfr⟩
  | false =>
    right
    cases hreq : f (tm.oauthURI ++ "/api/v2/oauth") with
    | some err =>
      left
      refine ⟨rfl, by simp [refreshFails, hreq], ?_⟩
      simp only [refreshToken, hfr, hreq]
      exact ⟨_, rfl⟩
    | none =>
      cases reply with
      | transportError err =>
        left
        refine ⟨rfl, by simp [refreshFails], ?_⟩
        simp only [refreshToken, hfr, hreq]
        exact ⟨_, rfl⟩
      | response code body decoded =>
        by_cases hc : code = 200
        · subst hc
          cases decoded with
          | error err =>
            left
            refine ⟨rfl, by simp [refreshFails], ?_⟩
            simp [refreshToken, hfr, hreq, StatusOK]
          | ok tr =>
            by_cases ht : tr.AccessToken = ""
            · left
              refine ⟨rfl, by simp [refreshFails, ht], ?_⟩
              simp [refreshToken, hfr, hreq, StatusOK, ht]
            · right
              exact ⟨rfl, by simp [refreshFails, hreq, ht], rfl, body, tr, rfl, ht,
                refreshToken_of_success f tm clock body tr hfr hreq ht⟩
        · left
          refine ⟨rfl, by simp [refreshFails, hc], ?_⟩
          simp [refreshToken, hfr, hreq, StatusOK, hc]

theorem storedExpiry_of_pos (v : Int) (now : Time) (hv : 0 < v) :
    storedExpiry v now = Unix (normalisedExpiry v) := by
  unfold storedExpiry normalisedExpiry
  rw [if_pos hv]
  by_cases h : v > 1000000000000
  · simp only [if_pos h]
    rw [Int.tdiv_eq_ediv (le_of_lt hv) (by decide)]
  · simp only [if_neg h]

theorem storedExpiry_of_nonpos (v : Int) (now : Time) (hv : v ≤ 0) :
    storedExpiry v now = now + 1740000000000 := by
  unfold storedExpiry
  rw [if_neg (not_lt.mpr hv)]
  simp [Time.Add, Minute, Second]

/-- Every outcome of `GetAccessToken` is one of: cache hit (at the first check
or under the lock), a failure that leaves the manager as it was, or a stored
fresh credential. -/
theorem GetAccessToken_cases (f : String → Option String) (tm : TokenManager)
    (clock : Clock) (reply : DoOutcome) :
    ((isFresh tm clock.nowFast = true ∨ isFresh tm clock.nowLocked = true) ∧
      GetAccessToken f tm clock reply = ⟨tm.accessToken, none, tm, 0⟩) ∨
    (isFresh tm clock.nowFast = false ∧ isFresh tm clock.nowLocked = false ∧
      refreshFails f tm reply = true ∧
      ∃ e, GetAccessToken f tm clock reply =
        ⟨"", some (.authentication e), tm,
          if (f (tm.oauthURI ++ "/api/v2/oauth")).isSome then 0 else 1⟩) ∨
    (isFresh tm clock.nowFast = false ∧ isFresh tm clock.nowLocked = false ∧
      refreshFails f tm reply = false ∧ f (tm.oauthURI ++ "/api/v2/oauth") = none ∧
      ∃ body tr, reply = .response 200 body (.ok tr) ∧ tr.AccessToken ≠ "" ∧
        GetAccessToken f tm clock reply =
          ⟨tr.AccessToken, none,
            { tm with accessToken := tr.AccessToken
                      expiresAt := storedExpiry tr.ExpiresAt clock.nowStore }, 1⟩) := by
  cases hfast : isFresh tm clock.nowFast with
  | true => exact Or.inl ⟨Or.inl rfl, GetAccessToken_of_fresh f tm clock reply hfast⟩
  | false =>
    rw [GetAccessToken_of_stale f tm clock reply hfast]
    rcases refreshToken_cases f tm clock reply with ⟨h, heq⟩ | ⟨h, hf, hex⟩ | ⟨h, hf, hreq, hex⟩
    · exact Or.inl ⟨Or.inr h, heq⟩
    · exact Or.inr (Or.inl ⟨rfl, h, hf, hex⟩)
    · exact Or.inr (Or.inr ⟨rfl, h, hf, hreq, hex⟩)

/-! ## The token cache -/

/-- C1 (as stated, refuted): a new manager called at `sampleNow` and answered with
`expires_at = 1600000000`, three years earlier, returns `tok` with a nil error
although `sampleNow + 30s` is not before the expiry stored for it. -/
theorem GetAccessToken_returns_expired_token :
    expiredCall.token = "tok" ∧ expiredCall.err = none ∧
    expiredCall.tm.accessToken = "tok" ∧ expiredCall.tm.expiresAt = Unix 1600000000 ∧
    (sampleNow.Add (30 * Second)).Before expiredCall.tm.expiresAt = false := by
  decide

/-- C1 (amended): for a call that takes place at the instant `now`, a token
returned with a nil error is non-empty and is the stored token. Served from the
cache (no request) it has more than 30 seconds of validity left at `now`. Freshly obtained, it is stored with the expiry of the response and
returned as received: it has more than 30 seconds left exactly when the response
has no positive `expires_at` (29 minutes are granted) or its normalised
`expires_at` is later than `now + 30s`. -/
theorem GetAccessToken_validity_margin (httpNewRequest : String → Option String)
    (tm : TokenManager) (now : Time) (reply : DoOutcome)
    (hok : (GetAccessToken httpNewRequest tm (Clock.instant now) reply).err = none) :
    (GetAccessToken httpNewRequest tm (Clock.instant now) reply).token ≠ "" ∧
    (GetAccessToken httpNewRequest tm (Clock.instant now) reply).token =
      (GetAccessToken httpNewRequest tm (Clock.instant now) reply).tm.accessToken ∧
    ((GetAccessToken httpNewRequest tm (Clock.instant now) reply).requests = 0 →
      (now.Add (30 * Second)).Before
        (GetAccessToken httpNewRequest tm (Clock.instant now) reply).tm.expiresAt = true) ∧
    ((GetAccessToken httpNewRequest tm (Clock.instant now) reply).requests ≠ 0 →
      ∃ body tr, reply = .response 200 body (.ok tr) ∧
        (GetAccessToken httpNewRequest tm (Clock.instant now) reply).tm.expiresAt =
          storedExpiry tr.ExpiresAt now ∧
        ((now.Add (30 * Second)).Before
            (GetAccessToken httpNewRequest tm (Clock.instant now) reply).tm.expiresAt = true ↔
          (tr.ExpiresAt ≤ 0 ∨
            (now.Add (30 * Second)).Before (Unix (normalisedExpiry tr.ExpiresAt)) = true))) := by
  rcases GetAccessToken_cases httpNewRequest tm (Clock.instant now) reply with
    ⟨hfr, heq⟩ | ⟨_, _, _, e, heq⟩ | ⟨_, _, _, _, body, tr, rfl, htok, heq⟩
  · have hfr' : isFresh tm now = true := by
      rcases hfr with h | h <;> exact h
    have h2 := (isFresh_true_iff tm now).mp hfr'
    rw [heq]
    refine ⟨h2.1, rfl, fun _ => ?_, fun h => absurd rfl h⟩
    simpa [Time.Before, Time.Add, Second] using h2.2
  · rw [heq] at hok
    simp at hok
  · rw [heq]
    refine ⟨htok, rfl, fun h => by simp at h, fun _ => ⟨body, tr, rfl, rfl, ?_⟩⟩
    simp only [Clock.instant]
    by_cases hv : 0 < tr.ExpiresAt
    · rw [storedExpiry_of_pos _ _ hv]
      constructor
      · exact fun h => Or.inr h
      · rintro (h | h)
        · exact absurd hv (not_lt.mpr h)
        · exact h
    · rw [storedExpiry_of_nonpos _ _ (not_lt.mp hv)]
      simp only [Time.Before, Time.Add, Second, decide_eq_true_eq]
      constructor
      · exact fun _ => Or.inl (not_lt.mp hv)
      · intro _
        linarith

/-- C1 (amended), at a new manager answered without `expires_at`. -/
theorem GetAccessToken_validity_margin_witness :
    (GetAccessToken newRequestOk (NewTokenManager "key") (Clock.instant sampleNow)
      bareTokenReply).err = none ∧
    (GetAccessToken newRequestOk (NewTokenManager "key") (Clock.instant sampleNow)
      bareTokenReply).token ≠ "" :=
  ⟨by decide,
    (GetAccessToken_validity_margin newRequestOk (NewTokenManager "key") sampleNow
      bareTokenReply (by decide)).1⟩

/-- C2: with a non-empty cached token whose expiry is strictly later than the
clock reading plus 30 seconds, `GetAccessToken` returns the cached token with a
nil error, calls `client.Do` zero times and leaves the manager, cached token and
expiry included, as it was. -/
theorem GetAccessToken_fast_path (httpNewRequest : String → Option String)
    (tm : TokenManager) (clock : Clock) (reply : DoOutcome)
    (htok : tm.accessToken ≠ "")
    (hexp : (clock.nowFast.Add (30 * Second)).Before tm.expiresAt = true) :
    (GetAccessToken httpNewRequest tm clock reply).token = tm.accessToken ∧
    (GetAccessToken httpNewRequest tm clock reply).err = none ∧
    (GetAccessToken httpNewRequest tm clock reply).requests = 0 ∧
    (GetAccessToken httpNewRequest tm clock reply).tm = tm ∧
    (GetAccessToken httpNewRequest tm clock reply).tm.accessToken = tm.accessToken ∧
    (GetAccessToken httpNewRequest tm clock reply).tm.expiresAt = tm.expiresAt := by
  have hfr : isFresh tm clock.nowFast = true := by
    simp [isFresh, htok, hexp]
  rw [GetAccessToken_of_fresh httpNewRequest tm clock reply hfr]
  exact ⟨rfl, rfl, rfl, rfl, rfl, rfl⟩

/-- C2, at a manager holding `old` for another hour, whatever the endpoint would
answer. -/
theorem GetAccessToken_fast_path_witness :
    (GetAccessToken newRequestOk warmManager (Clock.instant sampleNow)
      unauthorizedReply).token = "old" ∧
    (GetAccessToken newRequestOk warmManager (Clock.instant sampleNow)
      unauthorizedReply).requests = 0 :=
  have h := GetAccessToken_fast_path newRequestOk warmManager (Clock.instant sampleNow)
    unauthorizedReply (by decide) (by decide)
  ⟨h.1, h.2.2.1⟩

/-- C3: a successful refresh whose response carries a positive `expires_at = v`
stores the instant `v / 1000` seconds after the epoch when `v` exceeds
1,000,000,000,000 and `v` seconds after the epoch otherwise; `1700000000000` and
`1700000000` store the same instant. -/
theorem refreshToken_expiry_normalisation (httpNewRequest : String → Option String)
    (tm : TokenManager) (clock : Clock) (body tok : String) (v : Int)
    (hstale : isFresh tm clock.nowLocked = false)
    (hreq : httpNewRequest (tm.oauthURI ++ "/api/v2/oauth") = none)
    (htok : tok ≠ "") (hv : 0 < v) :
    (refreshToken httpNewRequest tm clock (.response 200 body (.ok ⟨tok, v⟩))).err = none ∧
    (1000000000000 < v →
      (refreshToken httpNewRequest tm clock (.response 200 body (.ok ⟨tok, v⟩))).tm.expiresAt
        = Unix (v / 1000)) ∧
    (v ≤ 1000000000000 →
      (refreshToken httpNewRequest tm clock (.response 200 body (.ok ⟨tok, v⟩))).tm.expiresAt
        = Unix v) ∧
    (refreshToken httpNewRequest tm clock
        (.response 200 body (.ok ⟨tok, 1700000000000⟩))).tm.expiresAt =
      (refreshToken httpNewRequest tm clock
        (.response 200 body (.ok ⟨tok, 1700000000⟩))).tm.expiresAt := by
  rw [refreshToken_of_success httpNewRequest tm clock body ⟨tok, v⟩ hstale hreq htok,
    refreshToken_of_success httpNewRequest tm clock body ⟨tok, 1700000000000⟩ hstale hreq htok,
    refreshToken_of_success httpNewRequest tm clock body ⟨tok, 1700000000⟩ hstale hreq htok]
  refine ⟨rfl, fun h => ?_, fun h => ?_, ?_⟩
  · show storedExpiry v clock.nowStore = Unix (v / 1000)
    rw [storedExpiry_of_pos v _ hv, normalisedExpiry, if_pos h]
  · show storedExpiry v clock.nowStore = Unix v
    rw [storedExpiry_of_pos v _ hv, normalisedExpiry, if_neg (not_lt.mpr h)]
  · show storedExpiry 1700000000000 clock.nowStore = storedExpiry 1700000000 clock.nowStore
    rw [storedExpiry_of_pos _ _ (by decide), storedExpiry_of_pos _ _ (by decide)]
    decide

/-- C3, at a new manager answered with a millisecond `expires_at`. -/
theorem refreshToken_expiry_normalisation_witness :
    (refreshToken newRequestOk (NewTokenManager "key") (Clock.instant sampleNow)
      (.response 200 "" (.ok ⟨"tok", 1700003600000⟩))).tm.expiresAt = Unix 1700003600 :=
  (refreshToken_expiry_normalisation newRequestOk (NewTokenManager "key")
    (Clock.instant sampleNow) "" "tok" 1700003600000 (by decide) (by decide) (by decide)
    (by decide)).2.1 (by decide)

/-- C4 (as stated, refuted): a new manager called at `sampleNow` and answered with
`expires_at = -1`, an instant in the past, stores `tok`; the call one second
later returns the stored `tok` and calls `client.Do` zero times. -/
theorem GetAccessToken_reuses_token_expired_before_epoch :
    beforeEpochCall.err = none ∧ beforeEpochCall.requests = 1 ∧
    (Unix (normalisedExpiry (-1))).Before sampleNow = true ∧
    GetAccessToken newRequestOk beforeEpochCall.tm (Clock.instant (sampleNow.Add Second))
      unauthorizedReply = ⟨"tok", none, beforeEpochCall.tm, 0⟩ := by
  decide

/-- C4 (amended): when a refresh has stored a response whose `expires_at` is
positive and, after unit normalisation, not later than `now + 30s`, every
following `GetAccessToken` call whose clock readings are not earlier than `now`
calls `client.Do` again, and a token it returns is the one of the new response. -/
theorem GetAccessToken_stale_response_forces_refresh
    (httpNewRequest : String → Option String) (tm : TokenManager) (clock : Clock)
    (body : String) (tr : TokenResponse) (now : Time) (next : Clock) (reply : DoOutcome)
    (hrefresh :
      (GetAccessToken httpNewRequest tm clock (.response 200 body (.ok tr))).requests = 1)
    (hstored : (GetAccessToken httpNewRequest tm clock (.response 200 body (.ok tr))).err = none)
    (hpos : 0 < tr.ExpiresAt)
    (hstale : (now.Add (30 * Second)).Before (Unix (normalisedExpiry tr.ExpiresAt)) = false)
    (hfast : now ≤ next.nowFast) (hlocked : now ≤ next.nowLocked) :
    (GetAccessToken httpNewRequest
      (GetAccessToken httpNewRequest tm clock (.response 200 body (.ok tr))).tm
      next reply).requests = 1 ∧
    ((GetAccessToken httpNewRequest
      (GetAccessToken httpNewRequest tm clock (.response 200 body (.ok tr))).tm
      next reply).err = none →
      ∃ body2 tr2, reply = .response 200 body2 (.ok tr2) ∧
        (GetAccessToken httpNewRequest
          (GetAccessToken httpNewRequest tm clock (.response 200 body (.ok tr))).tm
          next reply).token = tr2.AccessToken) := by
  rcases GetAccessToken_cases httpNewRequest tm clock (.response 200 body (.ok tr)) with
    ⟨_, heq⟩ | ⟨_, _, _, e, heq⟩ | ⟨_, _, _, hreq, body1, tr1, hbt, htok, heq⟩
  · rw [heq] at hrefresh
    simp at hrefresh
  · rw [heq] at hstored
    simp at hstored
  · obtain ⟨-, rfl⟩ : body = body1 ∧ tr = tr1 := by
      simpa using hbt
    rw [heq]
    have hle : Unix (normalisedExpiry tr.ExpiresAt) ≤ now + 30000000000 := by
      have := hstale
      simp only [Time.Before, Time.Add, Second, decide_eq_false_iff_not, not_lt] at this
      linarith
    have hs1 : isFresh { tm with accessToken := tr.AccessToken
                                 expiresAt := storedExpiry tr.ExpiresAt clock.nowStore }
        next.nowFast = false := by
      rw [isFresh_false_iff, storedExpiry_of_pos _ _ hpos]
      right
      show Unix (normalisedExpiry tr.ExpiresAt) ≤ next.nowFast + 30000000000
      linarith
    have hs2 : isFresh { tm with accessToken := tr.AccessToken
                                 expiresAt := storedExpiry tr.ExpiresAt clock.nowStore }
        next.nowLocked = false := by
      rw [isFresh_false_iff, storedExpiry_of_pos _ _ hpos]
      right
      show Unix (normalisedExpiry tr.ExpiresAt) ≤ next.nowLocked + 30000000000
      linarith
    rcases GetAccessToken_cases httpNewRequest
        { tm with accessToken := tr.AccessToken
                  expiresAt := storedExpiry tr.ExpiresAt clock.nowStore } next reply with
      ⟨hfr, _⟩ | ⟨_, _, _, e, heq2⟩ | ⟨_, _, _, _, body2, tr2, rfl, _, heq2⟩
    · rcases hfr with h | h
      · rw [hs1] at h
        exact absurd h (by decide)
      · rw [hs2] at h
        exact absurd h (by decide)
    · rw [heq2]
      have hreq2 : httpNewRequest (tm.oauthURI ++ "/api/v2/oauth") = none := hreq
      simp [hreq2]
    · rw [heq2]
      exact ⟨rfl, fun _ => ⟨body2, tr2, rfl, rfl⟩⟩

/-- C4 (amended), at a new manager answered with an expiry three years old and
called again one second later. -/
theorem GetAccessToken_stale_response_forces_refresh_witness :
    (GetAccessToken newRequestOk expiredCall.tm (Clock.instant (sampleNow.Add Second))
      hourReply).requests = 1 :=
  (GetAccessToken_stale_response_forces_refresh newRequestOk (NewTokenManager "key")
    (Clock.instant sampleNow)
    "\x7b\"access_token\":\"tok\",\"expires_at\":1600000000\x7d" ⟨"tok", 1600000000⟩
    sampleNow (Clock.instant (sampleNow.Add Second)) hourReply
    (by decide) (by decide) (by decide) (by decide) (by decide) (by decide)).1

/-- C5: when a refresh is needed (the cache is stale at both checks) and it fails
for one of the listed causes, `GetAccessToken` returns the empty string with an
`AuthenticationError`; whenever it returns an error the token is empty and the
error is an `AuthenticationError`; whenever the error is nil the token is not
empty. -/
theorem GetAccessToken_failure_is_authentication_error
    (httpNewRequest : String → Option String) (tm : TokenManager) (clock : Clock)
    (reply : DoOutcome) :
    (isFresh tm clock.nowFast = false → isFresh tm clock.nowLocked = false →
      refreshFails httpNewRequest tm reply = true →
      (GetAccessToken httpNewRequest tm clock reply).token = "" ∧
      ∃ e, (GetAccessToken httpNewRequest tm clock reply).err = some (.authentication e)) ∧
    ((GetAccessToken httpNewRequest tm clock reply).err ≠ none →
      (GetAccessToken httpNewRequest tm clock reply).token = "" ∧
      ∃ e, (GetAccessToken httpNewRequest tm clock reply).err = some (.authentication e)) ∧
    ((GetAccessToken httpNewRequest tm clock reply).err = none →
      (GetAccessToken httpNewRequest tm clock reply).token ≠ "") := by
  rcases GetAccessToken_cases httpNewRequest tm clock reply with
    ⟨hfr, heq⟩ | ⟨_, _, _, e, heq⟩ | ⟨_, _, hnf, _, body, tr, rfl, htok, heq⟩
  · rw [heq]
    refine ⟨fun h1 h2 _ => ?_, fun h => absurd rfl h, fun _ => ?_⟩
    · rcases hfr with h | h
      · rw [h1] at h
        exact absurd h (by decide)
      · rw [h2] at h
        exact absurd h (by decide)
    · rcases hfr with h | h
      · exact ((isFresh_true_iff _ _).mp h).1
      · exact ((isFresh_true_iff _ _).mp h).1
  · rw [heq]
    exact ⟨fun _ _ _ => ⟨rfl, e, rfl⟩, fun _ => ⟨rfl, e, rfl⟩, fun h => by simp at h⟩
  · rw [heq]
    refine ⟨fun _ _ hf => ?_, fun h => absurd rfl h, fun _ => htok⟩
    rw [hnf] at hf
    exact absurd hf (by decide)

/-- C5, at a new manager answered with 401. -/
theorem GetAccessToken_failure_is_authentication_error_witness :
    (GetAccessToken newRequestOk (NewTokenManager "key") (Clock.instant sampleNow)
      unauthorizedReply).token = "" ∧
    ∃ e, (GetAccessToken newRequestOk (NewTokenManager "key") (Clock.instant sampleNow)
      unauthorizedReply).err = some (.authentication e) :=
  (GetAccessToken_failure_is_authentication_error newRequestOk (NewTokenManager "key")
    (Clock.instant sampleNow) unauthorizedReply).1 (by decide) (by decide) (by decide)

/-- C6: a call whose refresh fails for one of the listed causes, or that returns
an error, leaves the manager (cached token and expiry included) equal to the one
before the call; the manager changes only in a call that returns a nil error
after one request, and then the token and the expiry are both replaced by those
of the response. -/
theorem GetAccessToken_failure_keeps_credential
    (httpNewRequest : String → Option String) (tm : TokenManager) (clock : Clock)
    (reply : DoOutcome) :
    (refreshFails httpNewRequest tm reply = true →
      (GetAccessToken httpNewRequest tm clock reply).tm = tm) ∧
    ((GetAccessToken httpNewRequest tm clock reply).err ≠ none →
      (GetAccessToken httpNewRequest tm clock reply).tm.accessToken = tm.accessToken ∧
      (GetAccessToken httpNewRequest tm clock reply).tm.expiresAt = tm.expiresAt) ∧
    ((GetAccessToken httpNewRequest tm clock reply).tm ≠ tm →
      (GetAccessToken httpNewRequest tm clock reply).err = none ∧
      (GetAccessToken httpNewRequest tm clock reply).requests = 1) ∧
    ((GetAccessToken httpNewRequest tm clock reply).err = none →
      (GetAccessToken httpNewRequest tm clock reply).requests = 1 →
      ∃ body tr, reply = .response 200 body (.ok tr) ∧
        (GetAccessToken httpNewRequest tm clock reply).tm =
          { tm with accessToken := tr.AccessToken
                    expiresAt := storedExpiry tr.ExpiresAt clock.nowStore }) := by
  rcases GetAccessToken_cases httpNewRequest tm clock reply with
    ⟨_, heq⟩ | ⟨_, _, _, e, heq⟩ | ⟨_, _, hnf, _, body, tr, rfl, htok, heq⟩
  · rw [heq]
    exact ⟨fun _ => rfl, fun _ => ⟨rfl, rfl⟩, fun h => absurd rfl h,
      fun _ h => by simp at h⟩
  · rw [heq]
    exact ⟨fun _ => rfl, fun _ => ⟨rfl, rfl⟩, fun h => absurd rfl h,
      fun h => by simp at h⟩
  · rw [heq]
    refine ⟨fun hf => ?_, fun h => absurd rfl h, fun _ => ⟨rfl, rfl⟩,
      fun _ _ => ⟨body, tr, rfl, rfl⟩⟩
    rw [hnf] at hf
    exact absurd hf (by decide)

/-- C6, at a manager holding the expired token `old`, answered with 401. -/
theorem GetAccessToken_failure_keeps_credential_witness :
    (GetAccessToken newRequestOk warmManager (Clock.instant (Unix 1700003600))
      unauthorizedReply).tm = warmManager :=
  (GetAccessToken_failure_keeps_credential newRequestOk warmManager
    (Clock.instant (Unix 1700003600)) unauthorizedReply).1 (by decide)

theorem status_message_prefix (x : String) :
    "authentication error: " ++ ("OAuth request failed with status " ++ x) =
      "authentication error: OAuth request failed with status " ++ x := by
  rw [← String.append_assoc]
  rfl

/-- C7: when a refresh is needed and the authorization endpoint answers with a
status other than 200 and body `b`, `GetAccessToken` returns the empty string
with an `AuthenticationError` whose text is
`authentication error: OAuth request failed with status <code>: <b>`, so it
contains the decimal status code and contains `b`. -/
theorem GetAccessToken_non200_message (httpNewRequest : String → Option String)
    (tm : TokenManager) (clock : Clock) (code : Int) (b : String)
    (decoded : Except String TokenResponse)
    (hfast : isFresh tm clock.nowFast = false) (hlocked : isFresh tm clock.nowLocked = false)
    (hreq : httpNewRequest (tm.oauthURI ++ "/api/v2/oauth") = none)
    (hcode : code ≠ 200) :
    ∃ e : AuthenticationError,
      (GetAccessToken httpNewRequest tm clock (.response code b decoded)).token = "" ∧
      (GetAccessToken httpNewRequest tm clock (.response code b decoded)).err
        = some (.authentication e) ∧
      e.Error = "authentication error: OAuth request failed with status " ++
        toString code ++ ": " ++ b ∧
      (∃ pre post : String, e.Message = pre ++ toString code ++ post) ∧
      (∃ pre post : String, e.Message = pre ++ b ++ post) ∧
      (∃ pre post : String, e.Error = pre ++ toString code ++ post) ∧
      (∃ pre post : String, e.Error = pre ++ b ++ post) := by
  refine ⟨{ Message := "OAuth request failed with status " ++ toString code ++ ": " ++ b
            Err := none }, ?_, ?_, ?_, ?_, ?_, ?_, ?_⟩
  · simp [GetAccessToken, refreshToken, hfast, hlocked, hreq, StatusOK, hcode]
  · simp [GetAccessToken, refreshToken, hfast, hlocked, hreq, StatusOK, hcode]
  · simp [AuthenticationError.Error, String.append_assoc, status_message_prefix]
  · exact ⟨"OAuth request failed with status ", ": " ++ b, by simp [String.append_assoc]⟩
  · exact ⟨"OAuth request failed with status " ++ toString code ++ ": ", "", by simp⟩
  · exact ⟨"authentication error: OAuth request failed with status ", ": " ++ b,
      by simp [AuthenticationError.Error, String.append_assoc, status_message_prefix]⟩
  · exact ⟨"authentication error: OAuth request failed with status " ++ toString code ++ ": ",
      "", by simp [AuthenticationError.Error, String.append_assoc, status_message_prefix]⟩

/-- C7, at a new manager answered with 401 and the body `bad credentials`. -/
theorem GetAccessToken_non200_message_witness :
    ∃ e : AuthenticationError,
      (GetAccessToken newRequestOk (NewTokenManager "key") (Clock.instant sampleNow)
        unauthorizedReply).err = some (.authentication e) ∧
      e.Error = "authentication error: OAuth request failed with status 401: bad credentials" :=
  have h := GetAccessToken_non200_message newRequestOk (NewTokenManager "key")
    (Clock.instant sampleNow) 401 "bad credentials" (.error "invalid character")
    (by decide) (by decide) (by decide) (by decide)
  h.elim fun e he => ⟨e, he.2.1, he.2.2.1.trans (by decide)⟩

/-- C8: a successful refresh whose response has a non-empty `access_token` and no
`expires_at` (the decoded field keeps its zero value) stores the refresh time
plus 29 minutes, and every call whose clock reading is strictly less than
28 minutes 30 seconds after that refresh time returns the token from the cache,
without a request and without changing the manager. -/
theorem GetAccessToken_default_expiry (httpNewRequest : String → Option String)
    (tm : TokenManager) (clock : Clock) (body tok : String) (next : Clock)
    (reply : DoOutcome)
    (hfast : isFresh tm clock.nowFast = false) (hlocked : isFresh tm clock.nowLocked = false)
    (hreq : httpNewRequest (tm.oauthURI ++ "/api/v2/oauth") = none)
    (htok : tok ≠ "")
    (hnext : next.nowFast < clock.nowStore.Add (28 * Minute + 30 * Second)) :
    (GetAccessToken httpNewRequest tm clock (.response 200 body (.ok ⟨tok, 0⟩))).err = none ∧
    (GetAccessToken httpNewRequest tm clock (.response 200 body (.ok ⟨tok, 0⟩))).token = tok ∧
    (GetAccessToken httpNewRequest tm clock (.response 200 body (.ok ⟨tok, 0⟩))).tm.accessToken
      = tok ∧
    (GetAccessToken httpNewRequest tm clock (.response 200 body (.ok ⟨tok, 0⟩))).tm.expiresAt
      = clock.nowStore.Add (29 * Minute) ∧
    GetAccessToken httpNewRequest
        (GetAccessToken httpNewRequest tm clock (.response 200 body (.ok ⟨tok, 0⟩))).tm
        next reply =
      ⟨tok, none,
        (GetAccessToken httpNewRequest tm clock (.response 200 body (.ok ⟨tok, 0⟩))).tm, 0⟩ := by
  rw [GetAccessToken_of_stale _ _ _ _ hfast,
    refreshToken_of_success httpNewRequest tm clock body ⟨tok, 0⟩ hlocked hreq htok]
  refine ⟨rfl, rfl, rfl, ?_, ?_⟩
  · show storedExpiry 0 clock.nowStore = clock.nowStore.Add (29 * Minute)
    simp [storedExpiry]
  · apply GetAccessToken_of_fresh
    rw [isFresh_true_iff]
    refine ⟨htok, ?_⟩
    show next.nowFast + 30000000000 < storedExpiry 0 clock.nowStore
    rw [storedExpiry_of_nonpos _ _ (le_refl 0)]
    simp only [Time.Add, Minute, Second] at hnext
    linarith

/-- C8, at a new manager refreshed at `sampleNow` and called again 28 minutes later. -/
theorem GetAccessToken_default_expiry_witness :
    (GetAccessToken newRequestOk (NewTokenManager "key") (Clock.instant sampleNow)
      (.response 200 "\x7b\"access_token\":\"tok\"\x7d" (.ok ⟨"tok", 0⟩))).tm.expiresAt
      = sampleNow.Add (29 * Minute) :=
  (GetAccessToken_default_expiry newRequestOk (NewTokenManager "key")
    (Clock.instant sampleNow) "\x7b\"access_token\":\"tok\"\x7d" "tok"
    (Clock.instant (sampleNow.Add (28 * Minute))) unauthorizedReply
    (by decide) (by decide) (by decide) (by decide) (by decide)).2.2.2.1

/-! ## The stream decoder -/

theorem decodeLoop_cons_skip (unmarshal : String → Except String ChatResponse)
    (text : String) (rest : List String) (scanErr : Option String)
    (h : TrimSpace text = "" ∨ HasPrefix (TrimSpace text) "data:" = false) :
    decodeLoop unmarshal (text :: rest) scanErr = decodeLoop unmarshal rest scanErr := by
  rcases h with h | h
  · simp [decodeLoop, h]
  · by_cases hb : TrimSpace text = ""
    · simp [decodeLoop, hb]
    · simp [decodeLoop, hb, h]

theorem decodeLoop_cons_done (unmarshal : String → Except String ChatResponse)
    (text : String) (rest : List String) (scanErr : Option String)
    (hdata : isDataLine text = true) (hdone : dataValue text = "[DONE]") :
    decodeLoop unmarshal (text :: rest) scanErr = ([⟨none, true, none⟩], none) := by
  have hpre : HasPrefix (TrimSpace text) "data:" = true := hdata
  have hne : TrimSpace text ≠ "" := by
    intro h
    rw [h] at hpre
    exact absurd hpre (by decide)
  have hd : TrimSpace (TrimPrefix (TrimSpace text) "data:") = "[DONE]" := hdone
  simp [decodeLoop, hne, hpre, hd]

theorem decodeLoop_cons_data (unmarshal : String → Except String ChatResponse)
    (text : String) (rest : List String) (scanErr : Option String)
    (hdata : isDataLine text = true) (hdone : dataValue text ≠ "[DONE]") :
    decodeLoop unmarshal (text :: rest) scanErr =
      (invocationFor unmarshal text :: (decodeLoop unmarshal rest scanErr).1,
        (decodeLoop unmarshal rest scanErr).2) := by
  have hpre : HasPrefix (TrimSpace text) "data:" = true := hdata
  have hne : TrimSpace text ≠ "" := by
    intro h
    rw [h] at hpre
    exact absurd hpre (by decide)
  have hd : TrimSpace (TrimPrefix (TrimSpace text) "data:") ≠ "[DONE]" := hdone
  have hd2 : dataValue text = TrimSpace (TrimPrefix (TrimSpace text) "data:") := rfl
  cases hu : unmarshal (TrimSpace (TrimPrefix (TrimSpace text) "data:")) with
  | error err => simp [decodeLoop, hne, hpre, hd, invocationFor, hd2, hu]
  | ok event => simp [decodeLoop, hne, hpre, hd, invocationFor, hd2, hu]

theorem isDataLine_false_iff (text : String) :
    isDataLine text = false ↔
      (TrimSpace text = "" ∨ HasPrefix (TrimSpace text) "data:" = false) := by
  constructor
  · intro h
    exact Or.inr h
  · rintro (h | h)
    · unfold isDataLine
      rw [h]
      decide
    · exact h

/-- C9: for lines read without an I/O failure the invocations made by the decode
loop are exactly, in line order, one per `data:` line (a line that, surrounding
white space apart, starts with `data:`) up to and including the first `[DONE]`
line: `(event, false, nil)` when the trimmed value parses, `(nil, false, decode
error)` when it does not. After a decode error the loop goes on with the
following lines; `data: not-json` followed by a `data:` line with a valid payload
gives one decode-failure invocation followed by one payload invocation. -/
theorem decodeLoop_invocations_in_order (unmarshal : String → Except String ChatResponse)
    (lines : List String) :
    (decodeLoop unmarshal lines none).1 = expectedInvocations unmarshal lines ∧
    (∀ (text : String) (rest : List String) (scanErr : Option String) (err : String),
      isDataLine text = true → dataValue text ≠ "[DONE]" →
      unmarshal (dataValue text) = .error err →
      decodeLoop unmarshal (text :: rest) scanErr =
        (⟨none, false,
            some (.gigachat { Message := "failed to decode event", Code := 0, Err := some err })⟩
          :: (decodeLoop unmarshal rest scanErr).1,
          (decodeLoop unmarshal rest scanErr).2)) ∧
    (∀ (second err : String) (event : ChatResponse),
      unmarshal "not-json" = .error err →
      isDataLine second = true → dataValue second ≠ "[DONE]" →
      unmarshal (dataValue second) = .ok event →
      decodeLoop unmarshal ["data: not-json", second] none =
        ([⟨none, false,
            some (.gigachat { Message := "failed to decode event", Code := 0, Err := some err })⟩,
          ⟨some event, false, none⟩], none)) := by
  refine ⟨?_, ?_, ?_⟩
  · induction lines with
    | nil => rfl
    | cons text rest ih =>
      cases hdata : isDataLine text with
      | false =>
        rw [decodeLoop_cons_skip unmarshal text rest none ((isDataLine_false_iff text).mp hdata),
          ih]
        simp [expectedInvocations, List.filter, hdata]
      | true =>
        by_cases hdone : dataValue text = "[DONE]"
        · rw [decodeLoop_cons_done unmarshal text rest none hdata hdone]
          simp [expectedInvocations, List.filter, hdata, uptoDone, hdone, invocationFor]
        · rw [decodeLoop_cons_data unmarshal text rest none hdata hdone, ih]
          simp [expectedInvocations, List.filter, hdata, uptoDone, hdone]
  · intro text rest scanErr err hdata hdone hu
    rw [decodeLoop_cons_data unmarshal text rest scanErr hdata hdone]
    simp [invocationFor, hdone, hu]
  · intro second err event hbad hdata hdone hu
    have h1 : isDataLine "data: not-json" = true := by decide
    have h2 : dataValue "data: not-json" = "not-json" := by decide
    have h3 : dataValue "data: not-json" ≠ "[DONE]" := by decide
    rw [decodeLoop_cons_data unmarshal _ _ none h1 h3,
      decodeLoop_cons_data unmarshal second [] none hdata hdone]
    simp [invocationFor, h2, hbad, hdone, hu, decodeLoop]

/-- C9, at `data: not-json` followed by a payload line. -/
theorem decodeLoop_invocations_in_order_witness :
    decodeLoop sampleUnmarshal ["data: not-json", "data: \x7b\"choices\":[]\x7d"] none =
      ([⟨none, false,
          some (.gigachat
            { Message := "failed to decode event", Code := 0, Err := some "invalid character" })⟩,
        ⟨some ⟨[], 0, "", ⟨0, 0, 0⟩, ""⟩, false, none⟩], none) :=
  (decodeLoop_invocations_in_order sampleUnmarshal []).2.2
    "data: \x7b\"choices\":[]\x7d" "invalid character" ⟨[], 0, "", ⟨0, 0, 0⟩, ""⟩
    (by rfl) (by decide) (by decide) (by rfl)

/-- C10 (as stated, refuted): the line ` data: [DONE]` does not start with the
characters `data:`, yet the decode loop invokes the handler for it and, the line
being the sentinel, does not go on to the line that follows. -/
theorem decodeLoop_invokes_on_indented_data_line :
    HasPrefix " data: [DONE]" "data:" = false ∧
    decodeLoop sampleUnmarshal [" data: [DONE]"] none = ([⟨none, true, none⟩], none) ∧
    decodeLoop sampleUnmarshal [" data: [DONE]", "data: \x7b\"choices\":[]\x7d"] none
      ≠ decodeLoop sampleUnmarshal ["data: \x7b\"choices\":[]\x7d"] none := by
  decide

/-- C10 (amended): a line that, once surrounding white space is trimmed, is empty
or does not start with `data:` causes no handler invocation and does not change
what the loop does with the other lines: the loop behaves as if the line were
not in the stream. -/
theorem decodeLoop_ignores_other_lines (unmarshal : String → Except String ChatResponse)
    (before : List String) (text : String) (after : List String) (scanErr : Option String)
    (h : TrimSpace text = "" ∨ HasPrefix (TrimSpace text) "data:" = false) :
    decodeLoop unmarshal (before ++ text :: after) scanErr =
      decodeLoop unmarshal (before ++ after) scanErr := by
  induction before with
  | nil => exact decodeLoop_cons_skip unmarshal text after scanErr h
  | cons b bs ih =>
    cases hdata : isDataLine b with
    | false =>
      have hb := (isDataLine_false_iff b).mp hdata
      rw [List.cons_append, List.cons_append, decodeLoop_cons_skip unmarshal b _ scanErr hb,
        decodeLoop_cons_skip unmarshal b _ scanErr hb, ih]
    | true =>
      by_cases hdone : dataValue b = "[DONE]"
      · rw [List.cons_append, List.cons_append,
          decodeLoop_cons_done unmarshal b _ scanErr hdata hdone,
          decodeLoop_cons_done unmarshal b _ scanErr hdata hdone]
      · rw [List.cons_append, List.cons_append,
          decodeLoop_cons_data unmarshal b _ scanErr hdata hdone,
          decodeLoop_cons_data unmarshal b _ scanErr hdata hdone, ih]

/-- C10 (amended), at a comment line between two `data:` lines. -/
theorem decodeLoop_ignores_other_lines_witness :
    decodeLoop sampleUnmarshal
      (["data: \x7b\"choices\":[]\x7d"] ++ ": keep-alive" :: ["data: [DONE]"]) none =
    decodeLoop sampleUnmarshal (["data: \x7b\"choices\":[]\x7d"] ++ ["data: [DONE]"]) none :=
  decodeLoop_ignores_other_lines sampleUnmarshal ["data: \x7b\"choices\":[]\x7d"]
    ": keep-alive" ["data: [DONE]"] none (Or.inr (by decide))

theorem invocationFor_done_false (unmarshal : String → Except String ChatResponse)
    (text : String) (hdone : dataValue text ≠ "[DONE]") :
    (invocationFor unmarshal text).done = false := by
  unfold invocationFor
  rw [if_neg hdone]
  cases unmarshal (dataValue text) <;> rfl

/-- With a sentinel among the lines the loop returns nil and its invocations are
some calls with `done = false` followed by the completion marker. -/
theorem decodeLoop_shape_of_done (unmarshal : String → Except String ChatResponse)
    (lines : List String) (scanErr : Option String)
    (h : ∃ text ∈ lines, isDataLine text = true ∧ dataValue text = "[DONE]") :
    ∃ init, decodeLoop unmarshal lines scanErr = (init ++ [⟨none, true, none⟩], none) ∧
      ∀ i ∈ init, i.done = false := by
  induction lines with
  | nil =>
    obtain ⟨text, hmem, _⟩ := h
    simp at hmem
  | cons b bs ih =>
    cases hdata : isDataLine b with
    | true =>
      by_cases hdone : dataValue b = "[DONE]"
      · exact ⟨[], by rw [decodeLoop_cons_done unmarshal b bs scanErr hdata hdone]; rfl,
          by simp⟩
      · have hrest : ∃ text ∈ bs, isDataLine text = true ∧ dataValue text = "[DONE]" := by
          obtain ⟨text, hmem, ht, hd⟩ := h
          rcases List.mem_cons.mp hmem with heq | hin
          · subst heq
            exact absurd hd hdone
          · exact ⟨text, hin, ht, hd⟩
        obtain ⟨init, heq, hinit⟩ := ih hrest
        refine ⟨invocationFor unmarshal b :: init, ?_, ?_⟩
        · rw [decodeLoop_cons_data unmarshal b bs scanErr hdata hdone, heq]
          rfl
        · intro i hi
          rcases List.mem_cons.mp hi with heq2 | hin
          · rw [heq2]
            exact invocationFor_done_false unmarshal b hdone
          · exact hinit i hin
    | false =>
      have hrest : ∃ text ∈ bs, isDataLine text = true ∧ dataValue text = "[DONE]" := by
        obtain ⟨text, hmem, ht, hd⟩ := h
        rcases List.mem_cons.mp hmem with heq | hin
        · subst heq
          rw [hdata] at ht
          exact absurd ht (by decide)
        · exact ⟨text, hin, ht, hd⟩
      rw [decodeLoop_cons_skip unmarshal b bs scanErr ((isDataLine_false_iff b).mp hdata)]
      exact ih hrest

/-- Without a sentinel among the lines no invocation has `done = true`, the
invocations do not depend on how the source ends, and the value returned is the
one the loop returns at the end of the source. -/
theorem decodeLoop_without_done (unmarshal : String → Except String ChatResponse)
    (lines : List String) (scanErr : Option String)
    (h : ∀ text ∈ lines, ¬ (isDataLine text = true ∧ dataValue text = "[DONE]")) :
    (∀ i ∈ (decodeLoop unmarshal lines scanErr).1, i.done = false) ∧
    (decodeLoop unmarshal lines scanErr).1 = expectedInvocations unmarshal lines ∧
    (decodeLoop unmarshal lines scanErr).2 = (decodeLoop unmarshal [] scanErr).2 := by
  induction lines with
  | nil =>
    refine ⟨?_, ?_, rfl⟩
    · intro i hi
      cases scanErr <;> simp [decodeLoop] at hi
    · cases scanErr <;> rfl
  | cons b bs ih =>
    have hrest : ∀ text ∈ bs, ¬ (isDataLine text = true ∧ dataValue text = "[DONE]") :=
      fun text hmem => h text (List.mem_cons_of_mem b hmem)
    obtain ⟨ih1, ih2, ih3⟩ := ih hrest
    cases hdata : isDataLine b with
    | true =>
      have hdone : dataValue b ≠ "[DONE]" := fun hd => h b (List.mem_cons_self b bs) ⟨hdata, hd⟩
      rw [decodeLoop_cons_data unmarshal b bs scanErr hdata hdone]
      refine ⟨?_, ?_, ih3⟩
      · intro i hi
        rcases List.mem_cons.mp hi with heq | hin
        · rw [heq]
          exact invocationFor_done_false unmarshal b hdone
        · exact ih1 i hin
      · show invocationFor unmarshal b :: (decodeLoop unmarshal bs scanErr).1 = _
        rw [ih2]
        simp [expectedInvocations, List.filter, hdata, uptoDone, hdone]
    | false =>
      rw [decodeLoop_cons_skip unmarshal b bs scanErr ((isDataLine_false_iff b).mp hdata)]
      refine ⟨ih1, ?_, ih3⟩
      rw [ih2]
      simp [expectedInvocations, List.filter, hdata]

theorem decodeLoop_stops_at_done (unmarshal : String → Except String ChatResponse)
    (before after : List String) (text : String) (scanErr : Option String)
    (hdata : isDataLine text = true) (hdone : dataValue text = "[DONE]") :
    decodeLoop unmarshal (before ++ text :: after) scanErr =
      decodeLoop unmarshal (before ++ [text]) none := by
  induction before with
  | nil =>
    rw [List.nil_append, List.nil_append, decodeLoop_cons_done unmarshal text after scanErr hdata hdone,
      decodeLoop_cons_done unmarshal text [] none hdata hdone]
  | cons b bs ih =>
    cases hb : isDataLine b with
    | false =>
      have hskip := (isDataLine_false_iff b).mp hb
      rw [List.cons_append, List.cons_append, decodeLoop_cons_skip unmarshal b _ scanErr hskip,
        decodeLoop_cons_skip unmarshal b _ none hskip, ih]
    | true =>
      by_cases hbd : dataValue b = "[DONE]"
      · rw [List.cons_append, List.cons_append,
          decodeLoop_cons_done unmarshal b _ scanErr hb hbd,
          decodeLoop_cons_done unmarshal b _ none hb hbd]
      · rw [List.cons_append, List.cons_append,
          decodeLoop_cons_data unmarshal b _ scanErr hb hbd,
          decodeLoop_cons_data unmarshal b _ none hb hbd, ih]

/-- C11: for lines read without an I/O failure the decode loop returns nil. If
some `data:` line has the trimmed value `[DONE]`, the invocations are calls with
`done = false` followed by exactly one `(nil, true, nil)`, which is the last one,
and the lines after the first sentinel change nothing: the loop does what it
does on the lines up to and including that sentinel. If no such line occurs, no
invocation has `done = true`. -/
theorem decodeLoop_completion_marker (unmarshal : String → Except String ChatResponse)
    (lines : List String) :
    (decodeLoop unmarshal lines none).2 = none ∧
    ((∃ text ∈ lines, isDataLine text = true ∧ dataValue text = "[DONE]") →
      ∃ init, (decodeLoop unmarshal lines none).1 = init ++ [⟨none, true, none⟩] ∧
        ∀ i ∈ init, i.done = false) ∧
    (∀ (before after : List String) (text : String),
      (∀ b ∈ before, ¬ (isDataLine b = true ∧ dataValue b = "[DONE]")) →
      isDataLine text = true → dataValue text = "[DONE]" →
      decodeLoop unmarshal (before ++ text :: after) none =
        (expectedInvocations unmarshal before ++ [⟨none, true, none⟩], none)) ∧
    ((∀ text ∈ lines, ¬ (isDataLine text = true ∧ dataValue text = "[DONE]")) →
      ∀ i ∈ (decodeLoop unmarshal lines none).1, i.done = false) := by
  refine ⟨?_, ?_, ?_, ?_⟩
  · by_cases h : ∃ text ∈ lines, isDataLine text = true ∧ dataValue text = "[DONE]"
    · obtain ⟨init, heq, _⟩ := decodeLoop_shape_of_done unmarshal lines none h
      rw [heq]
    · have hno : ∀ text ∈ lines, ¬ (isDataLine text = true ∧ dataValue text = "[DONE]") :=
        fun text hmem hc => h ⟨text, hmem, hc⟩
      rw [(decodeLoop_without_done unmarshal lines none hno).2.2]
      rfl
  · intro h
    obtain ⟨init, heq, hinit⟩ := decodeLoop_shape_of_done unmarshal lines none h
    exact ⟨init, by rw [heq], hinit⟩
  · intro before after text hbefore hdata hdone
    rw [decodeLoop_stops_at_done unmarshal before after text none hdata hdone]
    clear after
    induction before with
    | nil =>
      rw [List.nil_append, decodeLoop_cons_done unmarshal text [] none hdata hdone]
      rfl
    | cons b bs ih =>
      have hrest : ∀ x ∈ bs, ¬ (isDataLine x = true ∧ dataValue x = "[DONE]") :=
        fun x hmem => hbefore x (List.mem_cons_of_mem b hmem)
      cases hb : isDataLine b with
      | false =>
        rw [List.cons_append,
          decodeLoop_cons_skip unmarshal b _ none ((isDataLine_false_iff b).mp hb), ih hrest]
        simp [expectedInvocations, List.filter, hb]
      | true =>
        have hbd : dataValue b ≠ "[DONE]" :=
          fun hd => hbefore b (List.mem_cons_self b bs) ⟨hb, hd⟩
        rw [List.cons_append, decodeLoop_cons_data unmarshal b _ none hb hbd, ih hrest]
        simp [expectedInvocations, List.filter, hb, uptoDone, hbd]
  · intro h
    exact (decodeLoop_without_done unmarshal lines none h).1

/-- C11, at a payload line, a blank line, the sentinel and a line after it. -/
theorem decodeLoop_completion_marker_witness :
    decodeLoop sampleUnmarshal
      (["data: \x7b\"choices\":[]\x7d", ""] ++ "data: [DONE]" :: ["data: not-json"]) none =
    (expectedInvocations sampleUnmarshal ["data: \x7b\"choices\":[]\x7d", ""] ++
      [⟨none, true, none⟩], none) :=
  (decodeLoop_completion_marker sampleUnmarshal []).2.2.1
    ["data: \x7b\"choices\":[]\x7d", ""] ["data: not-json"] "data: [DONE]"
    (by decide) (by decide) (by decide)

/-- C12: when the source fails with the error `cause` after the lines `lines`,
none of which is a `[DONE]` line, the decode loop returns a non-nil
`GigaChatError` (`stream reading error`) whose wrapped cause is `cause`; the
invocations made are exactly those for `lines`, the same as when the source
ends there without failure, and none has `done = true`. -/
theorem decodeLoop_source_failure (unmarshal : String → Except String ChatResponse)
    (lines : List String) (cause : String)
    (hnodone : ∀ text ∈ lines, ¬ (isDataLine text = true ∧ dataValue text = "[DONE]")) :
    (∃ e : GigaChatError,
      (decodeLoop unmarshal lines (some cause)).2 = some (.gigachat e) ∧
      e.Message = "stream reading error" ∧ e.Unwrap = some cause) ∧
    (decodeLoop unmarshal lines (some cause)).1 = (decodeLoop unmarshal lines none).1 ∧
    (decodeLoop unmarshal lines (some cause)).1 = expectedInvocations unmarshal lines ∧
    (∀ i ∈ (decodeLoop unmarshal lines (some cause)).1, i.done = false) := by
  obtain ⟨h1, h2, h3⟩ := decodeLoop_without_done unmarshal lines (some cause) hnodone
  obtain ⟨_, k2, _⟩ := decodeLoop_without_done unmarshal lines none hnodone
  refine ⟨⟨⟨"stream reading error", 0, some cause⟩, ?_, rfl, rfl⟩, ?_, h2, h1⟩
  · rw [h3]
    rfl
  · rw [h2, k2]

/-- C12, at a source that fails after a payload line and a malformed line. -/
theorem decodeLoop_source_failure_witness :
    (decodeLoop sampleUnmarshal ["data: \x7b\"choices\":[]\x7d", "data: not-json"]
      (some "unexpected EOF")).1 =
    (decodeLoop sampleUnmarshal ["data: \x7b\"choices\":[]\x7d", "data: not-json"] none).1 :=
  (decodeLoop_source_failure sampleUnmarshal
    ["data: \x7b\"choices\":[]\x7d", "data: not-json"] "unexpected EOF" (by decide)).2.1

/-! ## Message validation -/

theorem wellFormed_iff (m : Message) :
    wellFormed m = true ↔
      (m.Role = "user" ∨ m.Role = "system" ∨ m.Role = "assistant") ∧
        TrimSpace m.Content ≠ "" := by
  simp [wellFormed, or_assoc]

theorem validateMessagesFrom_cons_of_wellFormed (i : Nat) (m : Message)
    (rest : List Message) (h : wellFormed m = true) :
    validateMessagesFrom i (m :: rest) = validateMessagesFrom (i + 1) rest := by
  obtain ⟨hrole, hcontent⟩ := (wellFormed_iff m).mp h
  have hnot : ¬ (m.Role ≠ "user" ∧ m.Role ≠ "system" ∧ m.Role ≠ "assistant") := by
    rintro ⟨h1, h2, h3⟩
    rcases hrole with h | h | h
    · exact h1 h
    · exact h2 h
    · exact h3 h
  rw [validateMessagesFrom, if_neg hnot, if_neg hcontent]

theorem validateMessagesFrom_cons_of_offender (i : Nat) (m : Message)
    (rest : List Message) (h : wellFormed m = false) :
    validateMessagesFrom i (m :: rest) =
      some (.validation
        { Message :=
            if m.Role = "user" ∨ m.Role = "system" ∨ m.Role = "assistant" then
              "message content at index " ++ toString i ++ " must be a non-empty string"
            else
              "invalid role \x27" ++ m.Role ++ "\x27 at index " ++ toString i ++
                ". Must be \x27user\x27, \x27system\x27, or \x27assistant\x27" }) := by
  by_cases hrole : m.Role = "user" ∨ m.Role = "system" ∨ m.Role = "assistant"
  · have hnot : ¬ (m.Role ≠ "user" ∧ m.Role ≠ "system" ∧ m.Role ≠ "assistant") := by
      rintro ⟨h1, h2, h3⟩
      rcases hrole with h | h | h
      · exact h1 h
      · exact h2 h
      · exact h3 h
    have hcontent : TrimSpace m.Content = "" := by
      by_contra hc
      have := (wellFormed_iff m).mpr ⟨hrole, hc⟩
      rw [h] at this
      exact absurd this (by decide)
    rw [validateMessagesFrom, if_neg hnot, if_pos hcontent, if_pos hrole]
  · have hyes : m.Role ≠ "user" ∧ m.Role ≠ "system" ∧ m.Role ≠ "assistant" :=
      ⟨fun h => hrole (Or.inl h), fun h => hrole (Or.inr (Or.inl h)),
        fun h => hrole (Or.inr (Or.inr h))⟩
    rw [validateMessagesFrom, if_pos hyes, if_neg hrole]

theorem validateMessagesFrom_eq_none_iff (i : Nat) (messages : List Message) :
    validateMessagesFrom i messages = none ↔ ∀ m ∈ messages, wellFormed m = true := by
  induction messages generalizing i with
  | nil => simp [validateMessagesFrom]
  | cons m rest ih =>
    cases hm : wellFormed m with
    | true =>
      rw [validateMessagesFrom_cons_of_wellFormed i m rest hm, ih]
      simp [hm]
    | false =>
      rw [validateMessagesFrom_cons_of_offender i m rest hm]
      simp [hm]

theorem validateMessagesFrom_first_offender (i : Nat) (good : List Message)
    (bad : Message) (rest : List Message)
    (hgood : ∀ m ∈ good, wellFormed m = true) (hbad : wellFormed bad = false) :
    validateMessagesFrom i (good ++ bad :: rest) =
      some (.validation
        { Message :=
            if bad.Role = "user" ∨ bad.Role = "system" ∨ bad.Role = "assistant" then
              "message content at index " ++ toString (i + good.length) ++
                " must be a non-empty string"
            else
              "invalid role \x27" ++ bad.Role ++ "\x27 at index " ++
                toString (i + good.length) ++
                ". Must be \x27user\x27, \x27system\x27, or \x27assistant\x27" }) := by
  induction good generalizing i with
  | nil =>
    rw [List.nil_append, validateMessagesFrom_cons_of_offender i bad rest hbad]
    rfl
  | cons g gs ih =>
    have hg : wellFormed g = true := hgood g (List.mem_cons_self g gs)
    have hgs : ∀ m ∈ gs, wellFormed m = true :=
      fun m hm => hgood m (List.mem_cons_of_mem g hm)
    rw [List.cons_append, validateMessagesFrom_cons_of_wellFormed i g _ hg, ih (i + 1) hgs]
    have hidx : i + 1 + gs.length = i + (g :: gs).length := by
      simp only [List.length_cons]
      omega
    rw [hidx]

/-- C14: `validateMessages` returns nil exactly when the list is non-empty and
every message has a role among `user`, `system`, `assistant` and a content that
is not empty after trimming; every other result is a `ValidationError`. On a
non-empty list whose first offending message stands at index `k` (all messages
before it are well formed) the error names `k`, with the role message when the
role is invalid and the content message otherwise. `Chat` and `ChatStream` return
that error with no call of `GetAccessToken`, no request to either endpoint and no
callback invocation. -/
theorem validateMessages_accepts_exactly_wellformed (messages : List Message) :
    (validateMessages messages = none ↔
      messages ≠ [] ∧ ∀ m ∈ messages,
        (m.Role = "user" ∨ m.Role = "system" ∨ m.Role = "assistant") ∧
          TrimSpace m.Content ≠ "") ∧
    (validateMessages messages ≠ none →
      ∃ e : ValidationError, validateMessages messages = some (.validation e)) ∧
    (∀ (good : List Message) (bad : Message) (rest : List Message),
      messages = good ++ bad :: rest → (∀ m ∈ good, wellFormed m = true) →
      wellFormed bad = false →
      validateMessages messages =
        some (.validation
          { Message :=
              if bad.Role = "user" ∨ bad.Role = "system" ∨ bad.Role = "assistant" then
                "message content at index " ++ toString good.length ++
                  " must be a non-empty string"
              else
                "invalid role \x27" ++ bad.Role ++ "\x27 at index " ++
                  toString good.length ++
                  ". Must be \x27user\x27, \x27system\x27, or \x27assistant\x27" })) ∧
    (∀ (err : GoError), validateMessages messages = some err →
      (∀ (httpNewRequest : String → Option String) (c : Client) (tm : TokenManager)
          (clock : Clock) (authReply : DoOutcome) (marshalErr : Option String)
          (reply : ChatOutcome),
        Chat httpNewRequest c tm clock authReply marshalErr reply messages =
          ⟨none, some err, tm, 0, 0, 0⟩) ∧
      (∀ (httpNewRequest : String → Option String)
          (unmarshal : String → Except String ChatResponse) (c : Client)
          (tm : TokenManager) (clock : Clock) (authReply : DoOutcome)
          (marshalErr : Option String) (reply : StreamOutcome),
        ChatStream httpNewRequest unmarshal c tm clock authReply marshalErr reply messages =
          ⟨some err, [], tm, 0, 0, 0⟩)) := by
  refine ⟨?_, ?_, ?_, ?_⟩
  · cases messages with
    | nil => simp [validateMessages]
    | cons m rest =>
      have hlen : (m :: rest).length ≠ 0 := by simp
      rw [validateMessages, if_neg hlen, validateMessagesFrom_eq_none_iff]
      constructor
      · intro h
        exact ⟨by simp, fun x hx => (wellFormed_iff x).mp (h x hx)⟩
      · rintro ⟨_, h⟩ x hx
        exact (wellFormed_iff x).mpr (h x hx)
  · intro hne
    cases messages with
    | nil => exact ⟨_, rfl⟩
    | cons m rest =>
      have hlen : (m :: rest).length ≠ 0 := by simp
      rw [validateMessages, if_neg hlen] at hne ⊢
      have hsome : ¬ ∀ x ∈ m :: rest, wellFormed x = true :=
        fun h => hne ((validateMessagesFrom_eq_none_iff 0 (m :: rest)).mpr h)
      clear hne hlen
      generalize (0 : Nat) = i
      generalize m :: rest = l at hsome
      induction l generalizing i with
      | nil => exact absurd (by simp) hsome
      | cons a as ih =>
        cases ha : wellFormed a with
        | false =>
          exact ⟨_, validateMessagesFrom_cons_of_offender i a as ha⟩
        | true =>
          rw [validateMessagesFrom_cons_of_wellFormed i a as ha]
          apply ih
          intro hall
          apply hsome
          intro x hx
          rcases List.mem_cons.mp hx with heq | hin
          · rw [heq]
            exact ha
          · exact hall x hin
  · intro good bad rest hm hgood hbad
    have hlen : messages.length ≠ 0 := by
      rw [hm]
      simp
    rw [validateMessages, if_neg hlen, hm,
      validateMessagesFrom_first_offender 0 good bad rest hgood hbad, Nat.zero_add]
  · intro err herr
    refine ⟨?_, ?_⟩
    · intro httpNewRequest c tm clock authReply marshalErr reply
      simp [Chat, herr]
    · intro httpNewRequest unmarshal c tm clock authReply marshalErr reply
      simp [ChatStream, herr]

/-- C14, at a conversation whose second message has the role `bot`. -/
theorem validateMessages_accepts_exactly_wellformed_witness :
    validateMessages [⟨"user", "hi"⟩, ⟨"bot", " "⟩] =
      some (.validation
        { Message :=
            "invalid role \x27bot\x27 at index 1. Must be \x27user\x27, \x27system\x27, or \x27assistant\x27" }) :=
  ((validateMessages_accepts_exactly_wellformed [⟨"user", "hi"⟩, ⟨"bot", " "⟩]).2.2.1
    [⟨"user", "hi"⟩] ⟨"bot", " "⟩ [] rfl (by decide) (by decide)).trans (by decide)

/-! ## Concurrent callers -/

theorem isFresh_of_herd_reading (all : List HerdStep) (v : Int)
    (hfresh : ∀ a ∈ all, ∀ b ∈ all, ∀ s ∈ b.storeReadings,
      (a.reading.Add (30 * Second)).Before (storedExpiry v s) = true)
    (tm : TokenManager) (a : HerdStep) (ha : a ∈ all) (htok : tm.accessToken ≠ "")
    (hexp : ∃ b ∈ all, ∃ s ∈ b.storeReadings, tm.expiresAt = storedExpiry v s) :
    isFresh tm a.reading = true := by
  obtain ⟨b, hb, s, hs, he⟩ := hexp
  rw [isFresh_true_iff]
  refine ⟨htok, ?_⟩
  have h := hfresh a ha b hb s hs
  rw [he]
  simpa [Time.Before, Time.Add, Second] using h

/-- One section keeps `HerdInv`. -/
theorem herdStep_inv (f : String → Option String) (endpoint : Nat → DoOutcome)
    (all : List HerdStep) (tok body : String) (v : Int)
    (hfirst : endpoint 0 = .response 200 body (.ok ⟨tok, v⟩)) (htok : tok ≠ "")
    (hfresh : ∀ a ∈ all, ∀ b ∈ all, ∀ s ∈ b.storeReadings,
      (a.reading.Add (30 * Second)).Before (storedExpiry v s) = true)
    (st st1 : HerdState) (s : HerdStep) (hs : s ∈ all)
    (hstep : herdStep f endpoint st s = some st1) (hinv : HerdInv f all tok v st) :
    HerdInv f all tok v st1 := by
  obtain ⟨hreq, hmemb, hphase⟩ := hinv
  cases s with
  | check caller now =>
    simp only [herdStep] at hstep
    by_cases hstarted : caller ∈ st.started
    · rw [if_pos hstarted] at hstep
      exact absurd hstep (by simp)
    · rw [if_neg hstarted] at hstep
      rcases hphase with ⟨hempty, hzero, hnil⟩ | ⟨hone, htk, hexp, hres⟩
      · have hstale : isFresh st.tm now = false :=
          (isFresh_false_iff _ _).mpr (Or.inl hempty)
        rw [hstale] at hstep
        simp only [Bool.false_eq_true, if_false, Option.some.injEq] at hstep
        subst hstep
        refine ⟨hreq, ?_, Or.inl ⟨hempty, hzero, hnil⟩⟩
        intro i hi
        rcases List.mem_cons.mp hi with heq | hin
        · exact Or.inl (heq ▸ List.mem_cons_self _ _)
        · rcases hmemb i hin with h | h
          · exact Or.inl (List.mem_cons_of_mem _ h)
          · exact Or.inr h
      · have hne : st.tm.accessToken ≠ "" := by
          rw [htk]
          exact htok
        have hfr : isFresh st.tm now = true :=
          isFresh_of_herd_reading all v hfresh st.tm (.check caller now) hs hne hexp
        rw [hfr] at hstep
        simp only [if_true, Option.some.injEq] at hstep
        subst hstep
        refine ⟨hreq, ?_, Or.inr ⟨hone, htk, hexp, ?_⟩⟩
        · intro i hi
          rcases List.mem_cons.mp hi with heq | hin
          · exact Or.inr ⟨(caller, st.tm.accessToken, none),
              List.mem_append_right _ (List.mem_singleton.mpr rfl), heq.symm⟩
          · rcases hmemb i hin with h | ⟨r, hr, hri⟩
            · exact Or.inl h
            · exact Or.inr ⟨r, List.mem_append_left _ hr, hri⟩
        · intro r hr
          rcases List.mem_append.mp hr with h | h
          · exact hres r h
          · rw [List.mem_singleton.mp h, htk]
  | refresh caller nowLocked nowStore =>
    simp only [herdStep] at hstep
    by_cases hwait : caller ∈ st.waiting
    · rw [if_pos hwait] at hstep
      simp only [Option.some.injEq] at hstep
      have hmemb1 : ∀ i, i ∈ st.started →
          i ∈ st.waiting.filter (fun j => j ≠ caller) ∨
            ∃ r ∈ st.results ++
              [(caller, (refreshToken f st.tm ⟨nowLocked, nowLocked, nowStore⟩
                  (endpoint st.requests)).token,
                (refreshToken f st.tm ⟨nowLocked, nowLocked, nowStore⟩
                  (endpoint st.requests)).err)], r.1 = i := by
        intro i hi
        by_cases hic : i = caller
        · exact Or.inr ⟨_, List.mem_append_right _ (List.mem_singleton.mpr rfl), hic.symm⟩
        · rcases hmemb i hi with h | ⟨r, hr, hri⟩
          · left
            rw [List.mem_filter]
            exact ⟨h, by simpa using hic⟩
          · exact Or.inr ⟨r, List.mem_append_left _ hr, hri⟩
      rcases hphase with ⟨hempty, hzero, hnil⟩ | ⟨hone, htk, hexp, hres⟩
      · have hstale : isFresh st.tm nowLocked = false :=
          (isFresh_false_iff _ _).mpr (Or.inl hempty)
        have hreply : endpoint st.requests = .response 200 body (.ok ⟨tok, v⟩) := by
          rw [hzero]
          exact hfirst
        have hok := refreshToken_of_success f st.tm ⟨nowLocked, nowLocked, nowStore⟩ body
          ⟨tok, v⟩ hstale hreq htok
        rw [hreply, hok] at hmemb1
        rw [hreply, hok] at hstep
        subst hstep
        refine ⟨hreq, hmemb1, Or.inr ⟨?_, rfl, ?_, ?_⟩⟩
        · show st.requests + 1 = 1
          rw [hzero]
        · exact ⟨.refresh caller nowLocked nowStore, hs, nowStore,
            List.mem_singleton.mpr rfl, rfl⟩
        · intro r hr
          rw [hnil] at hr
          rw [List.mem_singleton.mp hr]
      · have hne : st.tm.accessToken ≠ "" := by
          rw [htk]
          exact htok
        have hfr : isFresh st.tm nowLocked = true :=
          isFresh_of_herd_reading all v hfresh st.tm (.refresh caller nowLocked nowStore)
            hs hne hexp
        have hhit := refreshToken_of_fresh f st.tm ⟨nowLocked, nowLocked, nowStore⟩
          (endpoint st.requests) hfr
        rw [hhit] at hmemb1
        rw [hhit] at hstep
        subst hstep
        refine ⟨hreq, hmemb1, Or.inr ⟨?_, htk, hexp, ?_⟩⟩
        · show st.requests + 0 = 1
          rw [hone]
        · intro r hr
          rcases List.mem_append.mp hr with h | h
          · exact hres r h
          · rw [List.mem_singleton.mp h, htk]
    · rw [if_neg hwait] at hstep
      exact absurd hstep (by simp)

/-- A run keeps `HerdInv`. -/
theorem herdRun_inv (f : String → Option String) (endpoint : Nat → DoOutcome)
    (all : List HerdStep) (tok body : String) (v : Int)
    (hfirst : endpoint 0 = .response 200 body (.ok ⟨tok, v⟩)) (htok : tok ≠ "")
    (hfresh : ∀ a ∈ all, ∀ b ∈ all, ∀ s ∈ b.storeReadings,
      (a.reading.Add (30 * Second)).Before (storedExpiry v s) = true)
    (steps : List HerdStep) (hsub : ∀ s ∈ steps, s ∈ all) (st final : HerdState)
    (hrun : herdRun f endpoint st steps = some final) (hinv : HerdInv f all tok v st) :
    HerdInv f all tok v final := by
  induction steps generalizing st with
  | nil =>
    simp only [herdRun, Option.some.injEq] at hrun
    rw [← hrun]
    exact hinv
  | cons s rest ih =>
    simp only [herdRun] at hrun
    cases hstep : herdStep f endpoint st s with
    | none =>
      rw [hstep] at hrun
      exact absurd hrun (by simp)
    | some st1 =>
      rw [hstep] at hrun
      exact ih (fun x hx => hsub x (List.mem_cons_of_mem s hx)) st1 hrun
        (herdStep_inv f endpoint all tok body v hfirst htok hfresh st st1 s
          (hsub s (List.mem_cons_self s rest)) hstep hinv)

/-- C13 (as stated, refuted): two callers of a new manager both run their check
before either refreshes; the endpoint answers 401 to the first request and drops
the second. The endpoint is contacted twice and the callers receive different
errors. -/
theorem herd_failed_refresh_is_repeated :
    (herdStart (NewTokenManager "key")).tm.accessToken = "" ∧
    Option.map HerdState.requests
      (herdRun newRequestOk failingEndpoint (herdStart (NewTokenManager "key")) twoCallers)
      = some 2 ∧
    Option.map HerdState.results
      (herdRun newRequestOk failingEndpoint (herdStart (NewTokenManager "key")) twoCallers)
      = some
        [(0, "", some (.authentication
            { Message := "OAuth request failed with status 401: bad credentials", Err := none })),
         (1, "", some (.authentication
            { Message := "OAuth token request failed", Err := some "connection reset" }))] := by
  decide

/-- C13 (amended): `N ≥ 1` callers start on a manager without a cached token and
run in any interleaving until all have returned. If the first request to the
authorization endpoint is answered with a non-empty token `tok` whose stored
expiry is more than 30 seconds after every clock reading of the run,
`client.Do` is called exactly once and every caller receives `(tok, nil)`. A
failed refresh is not shared: a waiting caller that runs `refreshToken` on a
manager without a token and whose request fails makes a request of its own,
receives the error of that request, and leaves the manager as it was. -/
theorem herd_single_refresh (httpNewRequest : String → Option String)
    (endpoint : Nat → DoOutcome) (tm : TokenManager) (N : Nat) (steps : List HerdStep)
    (final : HerdState) :
    (∀ (tok body : String) (v : Int),
      tm.accessToken = "" → 1 ≤ N →
      httpNewRequest (tm.oauthURI ++ "/api/v2/oauth") = none →
      endpoint 0 = .response 200 body (.ok ⟨tok, v⟩) → tok ≠ "" →
      (∀ a ∈ steps, ∀ b ∈ steps, ∀ s ∈ b.storeReadings,
        (a.reading.Add (30 * Second)).Before (storedExpiry v s) = true) →
      herdRun httpNewRequest endpoint (herdStart tm) steps = some final →
      final.waiting = [] → (∀ i, i < N → i ∈ final.started) →
      final.requests = 1 ∧ (∀ i, i < N → (i, tok, none) ∈ final.results) ∧
        ∀ r ∈ final.results, r.2 = (tok, none)) ∧
    (∀ (st : HerdState) (caller : Nat) (nowLocked nowStore : Time),
      st.tm.accessToken = "" → caller ∈ st.waiting →
      httpNewRequest (st.tm.oauthURI ++ "/api/v2/oauth") = none →
      refreshFails httpNewRequest st.tm (endpoint st.requests) = true →
      ∃ e : AuthenticationError,
        herdStep httpNewRequest endpoint st (.refresh caller nowLocked nowStore) =
          some { tm := st.tm
                 started := st.started
                 waiting := st.waiting.filter (fun i => i ≠ caller)
                 results := st.results ++ [(caller, "", some (.authentication e))]
                 requests := st.requests + 1 }) := by
  refine ⟨?_, ?_⟩
  · intro tok body v hempty hN hreq hfirst htok hfresh hrun hwait hall
    have hstart : HerdInv httpNewRequest steps tok v (herdStart tm) :=
      ⟨hreq, fun i hi => absurd hi (by simp [herdStart]), Or.inl ⟨hempty, rfl, rfl⟩⟩
    obtain ⟨_, hmemb, hphase⟩ := herdRun_inv httpNewRequest endpoint steps tok body v hfirst
      htok hfresh steps (fun s hs => hs) (herdStart tm) final hrun hstart
    have hreturned : ∀ i, i < N → ∃ r ∈ final.results, r.1 = i := by
      intro i hi
      rcases hmemb i (hall i hi) with h | h
      · rw [hwait] at h
        exact absurd h (by simp)
      · exact h
    rcases hphase with ⟨_, _, hnil⟩ | ⟨hone, _, _, hres⟩
    · obtain ⟨r, hr, _⟩ := hreturned 0 (by omega)
      rw [hnil] at hr
      exact absurd hr (by simp)
    · refine ⟨hone, ?_, hres⟩
      intro i hi
      obtain ⟨r, hr, hri⟩ := hreturned i hi
      have h2 := hres r hr
      have hreq2 : r = (i, tok, none) := by
        rw [← hri, ← h2]
      rw [← hreq2]
      exact hr
  · intro st caller nowLocked nowStore hempty hwait hreq hfails
    have hstale : isFresh st.tm nowLocked = false :=
      (isFresh_false_iff _ _).mpr (Or.inl hempty)
    rcases refreshToken_cases httpNewRequest st.tm ⟨nowLocked, nowLocked, nowStore⟩
        (endpoint st.requests) with ⟨hfr, _⟩ | ⟨_, _, e, heq⟩ | ⟨_, hnf, _⟩
    · rw [hstale] at hfr
      exact absurd hfr (by decide)
    · refine ⟨e, ?_⟩
      simp only [herdStep, if_pos hwait, heq, hreq]
      rfl
    · rw [hfails] at hnf
      exact absurd hnf (by decide)

/-- C13 (amended), at two callers of a new manager that both check before either
refreshes, the endpoint answering with a token valid for an hour. -/
theorem herd_single_refresh_witness :
    (⟨{ NewTokenManager "key" with accessToken := "tok", expiresAt := Unix 1700003600 },
      [1, 0], [], [(0, "tok", none), (1, "tok", none)], 1⟩ : HerdState).requests = 1 ∧
    ∀ i, i < 2 → (i, "tok", none) ∈
      (⟨{ NewTokenManager "key" with accessToken := "tok", expiresAt := Unix 1700003600 },
        [1, 0], [], [(0, "tok", none), (1, "tok", none)], 1⟩ : HerdState).results :=
  have h := (herd_single_refresh newRequestOk (fun _ => hourReply) (NewTokenManager "key") 2
    twoCallers
    ⟨{ NewTokenManager "key" with accessToken := "tok", expiresAt := Unix 1700003600 },
      [1, 0], [], [(0, "tok", none), (1, "tok", none)], 1⟩).1
    "tok" "\x7b\"access_token\":\"tok\",\"expires_at\":1700003600000\x7d" 1700003600000
    (by decide) (by decide) (by decide) (by rfl) (by decide) (by decide) (by decide)
    (by decide) (by decide)
  ⟨h.1, h.2.1⟩

end GigaChat
